import Mathlib

/-!
# mic-dsp: the Speex noise-suppression filter

A shallow embedding of `src/mic-dsp/noise-suppress-filter.cpp`.

* The filter instance `noise_suppress_data` keeps, for each of the two channel
  slots, a nullable engine handle and a nullable 16 bit PCM buffer.
* The Speex preprocessor and the allocator are outside the repository.  They are
  taken as a parameter `Engine σ` with an abstract engine state `σ`; every call
  made to them is appended to a log of `Event`s, so that statements about which
  calls are issued, and in which order, can be made.
* `float` values are rationals; the product `adata[i][j] * c_32_to_16` is rounded
  to the nearest binary32 value (`fl32`), as the hardware multiplication does.
  The conversion of a 16 bit integer to `float` and the division by `2 ^ 15` are
  exact in binary32.  `spx_int16_t` values are integers reduced to the 16 bit
  two's complement range at the cast.
* Array accesses are `Option`-indexed: an access outside the extent of a plane or
  of a scratch buffer, or through a null buffer, makes the call return `none`.
-/

namespace MicDsp

/-! ## External collaborators -/

/-- A non-null `SpeexPreprocessState*`.  A nullable pointer is an `Option Handle`. -/
abbrev Handle := Nat

/-- One call across the boundary of the filter, tagged with the channel slot on
whose behalf it is made.  `init`, `ctl`, `run` and `destroy` are the calls
`speex_preprocess_state_init`, `speex_preprocess_ctl` (with request
`SPEEX_PREPROCESS_SET_NOISE_SUPPRESS`), `speex_preprocess_run` and
`speex_preprocess_state_destroy`; `alloc` is `new spx_int16_t[len]` and `free`
the release of a non-null buffer by `unique_ptr::reset`. -/
inductive Event where
  | init (ch : Fin 2) (segment_size sample_rate : Nat) (res : Option Handle)
  | alloc (ch : Fin 2) (len : Nat)
  | ctl (ch : Fin 2) (h : Handle) (level : Int)
  | run (ch : Fin 2) (h : Handle) (inp out : List Int)
  | destroy (ch : Fin 2) (h : Handle)
  | free (ch : Fin 2)
  deriving DecidableEq, Repr

/-- The channel slot an event belongs to. -/
def Event.chan : Event → Fin 2
  | .init ch _ _ _ => ch
  | .alloc ch _ => ch
  | .ctl ch _ _ => ch
  | .run ch _ _ _ => ch
  | .destroy ch _ => ch
  | .free ch => ch

/-- Events that create a resource: an engine `init` or a buffer `alloc`. -/
def Event.creates : Event → Bool
  | .init _ _ _ _ => true
  | .alloc _ _ => true
  | _ => false

/-- The engine `init` events. -/
def Event.isInit : Event → Bool
  | .init _ _ _ _ => true
  | _ => false

/-- The buffer `alloc` events. -/
def Event.isAlloc : Event → Bool
  | .alloc _ _ => true
  | _ => false

/-- The engine `destroy` events. -/
def Event.isDestroy : Event → Bool
  | .destroy _ _ => true
  | _ => false

/-- The Speex preprocessor as a black box over its own state `σ`.
`state_init` may return a null handle.  `run` works in place on the array it is
given, so the array it leaves has the length of the one it received.  `fresh j`
is the indeterminate value found at index `j` of a newly allocated array. -/
structure Engine (σ : Type) where
  state_init : σ → Nat → Nat → Option Handle × σ
  ctl_noise_suppress : σ → Handle → Int → σ
  run : σ → Handle → List Int → List Int × σ
  state_destroy : σ → Handle → σ
  fresh : Nat → Int
  run_length : ∀ s h b, (run s h b).1.length = b.length

/-- The engine state together with the log of calls issued so far. -/
structure World (σ : Type) where
  eng : σ
  log : List Event

/-- The engine state after the call an event records is made in state `e`.  The
allocation and the release of a buffer do not involve the engine. -/
def Event.apply {σ : Type} (E : Engine σ) (e : σ) : Event → σ
  | .init _ segment_size sample_rate _ => (E.state_init e segment_size sample_rate).2
  | .alloc _ _ => e
  | .ctl _ h level => E.ctl_noise_suppress e h level
  | .run _ h inp _ => (E.run e h inp).2
  | .destroy _ h => E.state_destroy e h
  | .free _ => e

/-- The result an event records is the one the engine gives in state `e`. -/
def Event.answered {σ : Type} (E : Engine σ) (e : σ) : Event → Prop
  | .init _ segment_size sample_rate res => res = (E.state_init e segment_size sample_rate).1
  | .run _ h inp out => out = (E.run e h inp).1
  | _ => True

/-- The engine state reached from `e` by making the calls of a log in order. -/
def replay {σ : Type} (E : Engine σ) (e : σ) : List Event → σ
  | [] => e
  | ev :: evs => replay E (ev.apply E e) evs

/-- Every result recorded in a log is the one the engine gives when the calls of
the log are made in order from state `e`. -/
def Answered {σ : Type} (E : Engine σ) (e : σ) : List Event → Prop
  | [] => True
  | ev :: evs => ev.answered E e ∧ Answered E (ev.apply E e) evs

/-- The world `w'` comes from `w` by engine calls that are all logged, in the
order in which they are made and with the results the engine gave. -/
def Faithful {σ : Type} (E : Engine σ) (w w' : World σ) : Prop :=
  ∃ evs, w'.log = w.log ++ evs ∧ w'.eng = replay E w.eng evs ∧ Answered E w.eng evs

/-! ## Data model -/

/-- The two channel slots of `struct noise_suppress_data` (`MAX_PREPROC_CHANNELS`
is 2) and the suppression level.  The `context` pointer only serves logging. -/
structure noise_suppress_data where
  state : Fin 2 → Option Handle
  segment_buffer : Fin 2 → Option (List Int)
  suppress_level : Int

/-- The part of `struct obs_audio_data` the filter touches: the first two planes,
each with the samples it holds, and the frame count. -/
structure obs_audio_data where
  data : Fin 2 → List ℚ
  frames : Nat
  timestamp : Nat

/-- The instance made by `new noise_suppress_data()`: both slots null. -/
def noise_suppress_data.fresh : noise_suppress_data where
  state := fun _ => none
  segment_buffer := fun _ => none
  suppress_level := 0

/-! ## Sample conversion -/

/-- The constant `c_32_to_16`: the largest `spx_int16_t`. -/
def c_32_to_16 : ℚ := 32767

/-- The constant `c_16_to_32`: the largest `spx_int16_t` plus one. -/
def c_16_to_32 : ℚ := 32768

/-- Truncation toward zero of a rational: the quotient of numerator by
denominator, rounded toward zero. -/
def trunc (x : ℚ) : Int := Int.tdiv x.num x.den

/-- Rounding of a rational to the nearest integer, a tie going to the even one. -/
def round_even (r : ℚ) : Int :=
  if 2 * (r.num % (r.den : Int)) < (r.den : Int) then r.num / (r.den : Int)
  else if (r.den : Int) < 2 * (r.num % (r.den : Int)) then r.num / (r.den : Int) + 1
  else if (r.num / (r.den : Int)) % 2 = 0 then r.num / (r.den : Int)
  else r.num / (r.den : Int) + 1

/-- Rounding of a real result to binary32, to nearest with ties to even: the
result is a multiple of `2 ^ (e - 23)`, where `e` is the binary exponent of the
value, and `e` is at least `-126` (below that lies the grid of the subnormal
numbers).  Overflow to infinity is left out: a value beyond the binary32 range
is rounded to 24 significant bits like any other. -/
def fl32 (q : ℚ) : ℚ :=
  (round_even (q / (2 : ℚ) ^ (max (Int.log 2 |q|) (-126) - 23)) : ℚ) *
    (2 : ℚ) ^ (max (Int.log 2 |q|) (-126) - 23)

/-- Reduction of an integer to the range of `spx_int16_t`. -/
def wrap16 (n : Int) : Int := (n + 32768) % 65536 - 32768

/-- The cast `(spx_int16_t) x` of a floating point value: truncation toward zero.
The conversion of a value outside the 16 bit range is not defined by the
language; the embedding takes the two's complement reduction there. -/
def to_int16 (x : ℚ) : Int := wrap16 (trunc x)

/-- The statement `(spx_int16_t) (f * c_32_to_16)` of the first loop: the product
of two `float`s is a `float`, so it is rounded to binary32 before the cast. -/
def sample_to_16 (f : ℚ) : Int := to_int16 (fl32 (f * c_32_to_16))

/-- The conversion to 16 bit over exact rational arithmetic, the product not
being rounded: the arithmetic in which the round trip property is stated. -/
def sample_to_16_exact (f : ℚ) : Int := to_int16 (f * c_32_to_16)

/-- The statement `v / c_16_to_32` of the second loop.  A 16 bit integer is a
binary32 value and so is its quotient by `2 ^ 15`: nothing is rounded. -/
def sample_to_32 (v : Int) : ℚ := (v : ℚ) / c_16_to_32

/-- The cast `(int)` of the `long long` returned by `obs_data_get_int`. -/
def int_cast (x : Int) : Int := (x + 2147483648) % 4294967296 - 2147483648

/-! ## `noise_suppress_update` and `noise_suppress_create` -/

/-- The block `if (!ng->state[i]) { ... }` of `noise_suppress_update`, which the
source writes out once for slot 0 and once for slot 1. -/
def ensure_state {σ : Type} (E : Engine σ) (w : World σ) (ng : noise_suppress_data)
    (i : Fin 2) (segment_size sample_rate : Nat) : World σ × noise_suppress_data :=
  match ng.state i with
  | some _ => (w, ng)
  | none =>
    let r := E.state_init w.eng segment_size sample_rate
    let w1 : World σ :=
      { eng := r.2, log := w.log ++ [Event.init i segment_size sample_rate r.1] }
    let ng1 : noise_suppress_data := { ng with state := Function.update ng.state i r.1 }
    match ng1.segment_buffer i with
    | some _ => (w1, ng1)
    | none =>
      ({ w1 with log := w1.log ++ [Event.alloc i segment_size] },
       { ng1 with
         segment_buffer :=
           Function.update ng1.segment_buffer i
             (some ((List.range segment_size).map E.fresh)) })

/-- The function `noise_suppress_update`.  `s` is the value the settings hold
under `suppress_level`; `sample_rate` and `channels` are what the audio
subsystem reports at the time of the call. -/
def noise_suppress_update {σ : Type} (E : Engine σ) (w : World σ)
    (ng : noise_suppress_data) (s : Int) (sample_rate channels : Nat) :
    World σ × noise_suppress_data :=
  let suppress_level := int_cast s
  let segment_size := sample_rate / 100
  let ng0 : noise_suppress_data := { ng with suppress_level := suppress_level }
  let r0 := ensure_state E w ng0 0 segment_size sample_rate
  if channels > 1 then ensure_state E r0.1 r0.2 1 segment_size sample_rate else r0

/-- The function `noise_suppress_create`. -/
def noise_suppress_create {σ : Type} (E : Engine σ) (w : World σ) (s : Int)
    (sample_rate channels : Nat) : World σ × noise_suppress_data :=
  noise_suppress_update E w noise_suppress_data.fresh s sample_rate channels

/-! ## `noise_suppress_filter_audio` -/

/-- The loop `for (j = 0; j < n; j++) dst[j] = f (src[j]);` with checked accesses. -/
def copy_loop {α β : Type} (f : α → β) (src : List α) (n : Nat) (dst : List β) :
    Option (List β) :=
  (List.range n).foldlM
    (fun d j =>
      match src[j]? with
      | none => none
      | some x => if j < d.length then some (d.set j (f x)) else none)
    dst

/-- The body of the channel loop of `noise_suppress_filter_audio` at index `i`. -/
def filter_channel {σ : Type} (E : Engine σ) (w : World σ) (ng : noise_suppress_data)
    (audio : obs_audio_data) (i : Fin 2) :
    Option (World σ × noise_suppress_data × obs_audio_data) :=
  match ng.state i with
  | none => some (w, ng, audio)
  | some h =>
    let e1 := E.ctl_noise_suppress w.eng h ng.suppress_level
    match ng.segment_buffer i with
    | none => none
    | some buf =>
      match copy_loop sample_to_16 (audio.data i) audio.frames buf with
      | none => none
      | some inp =>
        let r := E.run e1 h inp
        match copy_loop sample_to_32 r.1 audio.frames (audio.data i) with
        | none => none
        | some plane =>
          some
            ({ eng := r.2,
               log := w.log ++ [Event.ctl i h ng.suppress_level, Event.run i h inp r.1] },
             { ng with segment_buffer := Function.update ng.segment_buffer i (some r.1) },
             { audio with data := Function.update audio.data i plane })

/-- The function `noise_suppress_filter_audio`: the body at index 0, then at 1. -/
def noise_suppress_filter_audio {σ : Type} (E : Engine σ) (w : World σ)
    (ng : noise_suppress_data) (audio : obs_audio_data) :
    Option (World σ × noise_suppress_data × obs_audio_data) :=
  match filter_channel E w ng audio 0 with
  | none => none
  | some r0 => filter_channel E r0.1 r0.2.1 r0.2.2 1

/-! ## `noise_suppress_destroy` -/

/-- The body of the first loop of `noise_suppress_destroy` at slot `i`. -/
def destroy_state {σ : Type} (E : Engine σ) (w : World σ) (ng : noise_suppress_data)
    (i : Fin 2) : World σ × noise_suppress_data :=
  match ng.state i with
  | none => (w, ng)
  | some h =>
    ({ eng := E.state_destroy w.eng h, log := w.log ++ [Event.destroy i h] },
     { ng with state := Function.update ng.state i none })

/-- The body of the second loop of `noise_suppress_destroy`: `j.reset()`. -/
def reset_buffer {σ : Type} (w : World σ) (ng : noise_suppress_data) (i : Fin 2) :
    World σ × noise_suppress_data :=
  match ng.segment_buffer i with
  | none => (w, ng)
  | some _ =>
    ({ w with log := w.log ++ [Event.free i] },
     { ng with segment_buffer := Function.update ng.segment_buffer i none })

/-- The function `noise_suppress_destroy`, up to the final `delete ng`: the value
returned is the instance as it stands just before it is deleted. -/
def noise_suppress_destroy {σ : Type} (E : Engine σ) (w : World σ)
    (ng : noise_suppress_data) : World σ × noise_suppress_data :=
  let a := destroy_state E w ng 0
  let b := destroy_state E a.1 a.2 1
  let c := reset_buffer b.1 b.2 0
  reset_buffer c.1 c.2 1

/-! ## Sequences of calls -/

/-- A call the host makes on a live instance. -/
inductive Call where
  | update (s : Int) (sample_rate channels : Nat)
  | filter_audio (audio : obs_audio_data)

/-- One host call.  The audio block belongs to the host and is not kept. -/
def step {σ : Type} (E : Engine σ) (st : World σ × noise_suppress_data) :
    Call → Option (World σ × noise_suppress_data)
  | .update s sample_rate channels =>
    some (noise_suppress_update E st.1 st.2 s sample_rate channels)
  | .filter_audio audio =>
    match noise_suppress_filter_audio E st.1 st.2 audio with
    | none => none
    | some r => some (r.1, r.2.1)

/-- A sequence of host calls, one after the other. -/
def run_calls {σ : Type} (E : Engine σ) (st : World σ × noise_suppress_data) :
    List Call → Option (World σ × noise_suppress_data)
  | [] => some st
  | c :: cs =>
    match step E st c with
    | none => none
    | some st1 => run_calls E st1 cs

/-! ## Vocabulary of the statements, and test doubles -/

/-- The block and the instance are fit for the call: every bound channel has a
scratch buffer, and neither that buffer nor the channel's plane is shorter than
the frame count. -/
def Ready (ng : noise_suppress_data) (audio : obs_audio_data) : Prop :=
  ∀ i h, ng.state i = some h →
    ∃ buf, ng.segment_buffer i = some buf ∧ audio.frames ≤ buf.length ∧
      audio.frames ≤ (audio.data i).length

/-- The buffer handed to the engine: the converted samples of the block followed
by what the buffer held beyond the frame count. -/
def engine_input (audio : obs_audio_data) (i : Fin 2) (buf : List Int) : List Int :=
  ((audio.data i).take audio.frames).map sample_to_16 ++ buf.drop audio.frames

/-- The plane written back from the buffer `out` the engine left. -/
def plane_output (audio : obs_audio_data) (i : Fin 2) (out : List Int) : List ℚ :=
  (out.take audio.frames).map sample_to_32 ++ (audio.data i).drop audio.frames

/-- What one pass of the channel loop does to slot `i`, with `evs` the calls it
logs. -/
def ChanOutcome {σ : Type} (E : Engine σ) (ng : noise_suppress_data)
    (audio : obs_audio_data) (ng' : noise_suppress_data) (a' : obs_audio_data) (i : Fin 2)
    (evs : List Event) : Prop :=
  match ng.state i with
  | none =>
    evs = [] ∧ ng'.segment_buffer i = ng.segment_buffer i ∧ a'.data i = audio.data i
  | some h =>
    ∃ buf out, ng.segment_buffer i = some buf ∧ audio.frames ≤ buf.length ∧
      audio.frames ≤ (audio.data i).length ∧ out.length = buf.length ∧
      (∃ e, out = (E.run e h (engine_input audio i buf)).1) ∧
      evs = [Event.ctl i h ng.suppress_level, Event.run i h (engine_input audio i buf) out] ∧
      ng'.segment_buffer i = some out ∧ a'.data i = plane_output audio i out

/-- Every engine `init` call returns a non-null handle. -/
def InitSucceeds {σ : Type} (E : Engine σ) : Prop :=
  ∀ s n r, (E.state_init s n r).1.isSome = true

/-- A test double of the engine: `init` hands out its call counter as the handle
and `run` leaves the buffer as it is. -/
def echo_engine : Engine Nat where
  state_init := fun s _ _ => (some s, s + 1)
  ctl_noise_suppress := fun s _ _ => s
  run := fun s _ b => (b, s)
  state_destroy := fun s _ => s
  fresh := fun _ => 0
  run_length := fun _ _ _ => rfl

/-- A test double of the engine whose first `init` call returns a null handle. -/
def flaky_engine : Engine Nat where
  state_init := fun s _ _ => (if s = 0 then none else some s, s + 1)
  ctl_noise_suppress := fun s _ _ => s
  run := fun s _ b => (b, s)
  state_destroy := fun s _ => s
  fresh := fun _ => 0
  run_length := fun _ _ _ => rfl

/-- A world in which nothing has happened yet. -/
def world0 : World Nat := { eng := 0, log := [] }

/-- What `noise_suppress_update` does to slot `i` when it reaches the block that
guards it, with `evs` the calls logged on behalf of the slot. -/
def SlotOutcome {σ : Type} (E : Engine σ) (ng ng' : noise_suppress_data) (i : Fin 2)
    (seg rate : Nat) (evs : List Event) : Prop :=
  match ng.state i with
  | some h => evs = [] ∧ ng'.state i = some h ∧ ng'.segment_buffer i = ng.segment_buffer i
  | none =>
    (∃ e, ng'.state i = (E.state_init e seg rate).1) ∧
      match ng.segment_buffer i with
      | some b => evs = [Event.init i seg rate (ng'.state i)] ∧ ng'.segment_buffer i = some b
      | none =>
        evs = [Event.init i seg rate (ng'.state i), Event.alloc i seg] ∧
          ng'.segment_buffer i = some ((List.range seg).map E.fresh)

/-- Every slot with an engine state has a scratch buffer. -/
def Buffered (ng : noise_suppress_data) : Prop :=
  ∀ i hd, ng.state i = some hd → ∃ buf, ng.segment_buffer i = some buf

/-- A block of two frames on two planes. -/
def block2 : obs_audio_data where
  data := fun _ => [1 / 2, -1 / 4]
  frames := 2
  timestamp := 0

/-- A block of one frame whose samples lie outside the nominal range. -/
def loud_block : obs_audio_data where
  data := fun _ => [2]
  frames := 1
  timestamp := 0

/-- Slot `i` is consistent with the log: either it holds nothing and nothing was
ever created for it, or it holds a handle and a buffer, the log has exactly one
`init` and one `alloc` for it, the `init` returned the handle held, and the
buffer has the length the `init` was given as segment size. -/
def Consistent {σ : Type} (st : World σ × noise_suppress_data) (i : Fin 2) : Prop :=
  (st.2.state i = none ∧ st.2.segment_buffer i = none ∧
      st.1.log.filter (fun e => e.creates && decide (e.chan = i)) = []) ∨
    ∃ hd seg rate buf, st.2.state i = some hd ∧ st.2.segment_buffer i = some buf ∧
      buf.length = seg ∧
      st.1.log.filter (fun e => e.creates && decide (e.chan = i)) =
        [Event.init i seg rate (some hd), Event.alloc i seg]

/-! ## Theorems -/

theorem copy_loop_zero {α β : Type} (f : α → β) (src : List α) (dst : List β) :
    copy_loop f src 0 dst = some dst := by
  simp [copy_loop]

theorem copy_loop_succ {α β : Type} (f : α → β) (src : List α) (n : Nat) (dst : List β) :
    copy_loop f src (n + 1) dst =
      (copy_loop f src n dst).bind (fun d =>
        match src[n]? with
        | none => none
        | some x => if n < d.length then some (d.set n (f x)) else none) := by
  simp [copy_loop, List.range_succ, List.foldlM_append]

theorem copied_set {α β : Type} (f : α → β) (src : List α) (n : Nat) (dst : List β)
    (hs : n < src.length) (hd : n < dst.length) :
    ((src.take n).map f ++ dst.drop n).set n (f src[n]) =
      (src.take (n + 1)).map f ++ dst.drop (n + 1) := by
  have hl : ((src.take n).map f).length = n := by
    rw [List.length_map, List.length_take]
    omega
  rw [List.set_append, if_neg (by omega), hl, Nat.sub_self,
    List.drop_eq_getElem_cons hd, List.set_cons_zero, List.take_succ,
    List.getElem?_eq_getElem hs, List.map_append]
  simp only [Option.toList, List.map_cons, List.map_nil, List.append_assoc,
    List.singleton_append]

theorem copy_loop_eq_some_iff {α β : Type} (f : α → β) (src : List α) (n : Nat)
    (dst r : List β) :
    copy_loop f src n dst = some r ↔
      n ≤ src.length ∧ n ≤ dst.length ∧ r = (src.take n).map f ++ dst.drop n := by
  induction n generalizing r with
  | zero => simp [copy_loop_zero, eq_comm]
  | succ n ih =>
    rw [copy_loop_succ]
    constructor
    · intro h
      rw [Option.bind_eq_some] at h
      obtain ⟨d, hd, hstep⟩ := h
      obtain ⟨h1, h2, rfl⟩ := (ih d).1 hd
      have hs : n < src.length := by
        by_contra hc
        rw [List.getElem?_eq_none (by omega)] at hstep
        cases hstep
      rw [List.getElem?_eq_getElem hs] at hstep
      have hlen : ((src.take n).map f ++ dst.drop n).length = dst.length := by
        rw [List.length_append, List.length_map, List.length_take, List.length_drop]
        omega
      simp only [hlen] at hstep
      by_cases hdl : n < dst.length
      · rw [if_pos hdl] at hstep
        refine ⟨hs, hdl, ?_⟩
        rw [← copied_set f src n dst hs hdl]
        exact (Option.some.inj hstep).symm
      · rw [if_neg hdl] at hstep
        cases hstep
    · rintro ⟨h1, h2, rfl⟩
      have hs : n < src.length := h1
      have hdl : n < dst.length := h2
      have hlen : ((src.take n).map f ++ dst.drop n).length = dst.length := by
        rw [List.length_append, List.length_map, List.length_take, List.length_drop]
        omega
      rw [(ih _).2 ⟨by omega, by omega, rfl⟩]
      simp only [Option.some_bind, List.getElem?_eq_getElem hs, hlen]
      rw [if_pos hdl, copied_set f src n dst hs hdl]

theorem filter_channel_unbound {σ : Type} (E : Engine σ) (w : World σ)
    (ng : noise_suppress_data) (audio : obs_audio_data) (i : Fin 2)
    (hs : ng.state i = none) : filter_channel E w ng audio i = some (w, ng, audio) := by
  simp [filter_channel, hs]

theorem filter_channel_bound {σ : Type} (E : Engine σ) (w : World σ)
    (ng : noise_suppress_data) (audio : obs_audio_data) (i : Fin 2) (h : Handle)
    (buf : List Int) (hs : ng.state i = some h) (hb : ng.segment_buffer i = some buf)
    (h1 : audio.frames ≤ buf.length) (h2 : audio.frames ≤ (audio.data i).length) :
    filter_channel E w ng audio i =
      some
        ({ eng := (E.run (E.ctl_noise_suppress w.eng h ng.suppress_level) h
              (engine_input audio i buf)).2,
           log := w.log ++ [Event.ctl i h ng.suppress_level,
              Event.run i h (engine_input audio i buf)
                (E.run (E.ctl_noise_suppress w.eng h ng.suppress_level) h
                  (engine_input audio i buf)).1] },
         { ng with
           segment_buffer := Function.update ng.segment_buffer i
             (some (E.run (E.ctl_noise_suppress w.eng h ng.suppress_level) h
                  (engine_input audio i buf)).1) },
         { audio with
           data := Function.update audio.data i
             (plane_output audio i
               (E.run (E.ctl_noise_suppress w.eng h ng.suppress_level) h
                  (engine_input audio i buf)).1) }) := by
  have e1 : copy_loop sample_to_16 (audio.data i) audio.frames buf =
      some (engine_input audio i buf) :=
    (copy_loop_eq_some_iff _ _ _ _ _).2 ⟨h2, h1, rfl⟩
  have hin : (engine_input audio i buf).length = buf.length := by
    unfold engine_input
    rw [List.length_append, List.length_map, List.length_take, List.length_drop]
    omega
  have e2 : copy_loop sample_to_32
      (E.run (E.ctl_noise_suppress w.eng h ng.suppress_level) h (engine_input audio i buf)).1
      audio.frames (audio.data i) =
      some (plane_output audio i
        (E.run (E.ctl_noise_suppress w.eng h ng.suppress_level) h
          (engine_input audio i buf)).1) :=
    (copy_loop_eq_some_iff _ _ _ _ _).2 ⟨by rw [E.run_length, hin]; exact h1, h2, rfl⟩
  simp only [filter_channel, hs, hb, e1, e2]

theorem filter_channel_defined {σ : Type} (E : Engine σ) (w : World σ)
    (ng : noise_suppress_data) (audio : obs_audio_data) (i : Fin 2) (h : Handle)
    (r : World σ × noise_suppress_data × obs_audio_data)
    (hs : ng.state i = some h) (hr : filter_channel E w ng audio i = some r) :
    ∃ buf, ng.segment_buffer i = some buf ∧ audio.frames ≤ buf.length ∧
      audio.frames ≤ (audio.data i).length := by
  simp only [filter_channel, hs] at hr
  cases hb : ng.segment_buffer i with
  | none => simp [hb] at hr
  | some buf =>
    simp only [hb] at hr
    cases hc : copy_loop sample_to_16 (audio.data i) audio.frames buf with
    | none => simp [hc] at hr
    | some inp =>
      obtain ⟨h2, h1, _⟩ := (copy_loop_eq_some_iff _ _ _ _ _).1 hc
      exact ⟨buf, rfl, h1, h2⟩

theorem plane_output_length (audio : obs_audio_data) (i : Fin 2) (out : List Int)
    (h1 : audio.frames ≤ out.length) (h2 : audio.frames ≤ (audio.data i).length) :
    (plane_output audio i out).length = (audio.data i).length := by
  unfold plane_output
  rw [List.length_append, List.length_map, List.length_take, List.length_drop]
  omega

/-- One pass of the channel loop, whenever it completes. -/
theorem filter_channel_spec {σ : Type} (E : Engine σ) (w : World σ)
    (ng : noise_suppress_data) (audio : obs_audio_data) (i : Fin 2)
    (w' : World σ) (ng' : noise_suppress_data) (a' : obs_audio_data)
    (hr : filter_channel E w ng audio i = some (w', ng', a')) :
    ng'.state = ng.state ∧ ng'.suppress_level = ng.suppress_level ∧
      a'.frames = audio.frames ∧ a'.timestamp = audio.timestamp ∧
      (∀ k, k ≠ i → ng'.segment_buffer k = ng.segment_buffer k ∧ a'.data k = audio.data k) ∧
      ∃ evs, w'.log = w.log ++ evs ∧ ChanOutcome E ng audio ng' a' i evs := by
  cases hs : ng.state i with
  | none =>
    rw [filter_channel_unbound E w ng audio i hs] at hr
    simp only [Option.some.injEq, Prod.mk.injEq] at hr
    obtain ⟨rfl, rfl, rfl⟩ := hr
    refine ⟨rfl, rfl, rfl, rfl, fun k _ => ⟨rfl, rfl⟩, [], by simp, ?_⟩
    simp [ChanOutcome, hs]
  | some h =>
    obtain ⟨buf, hb, h1, h2⟩ := filter_channel_defined E w ng audio i h _ hs hr
    rw [filter_channel_bound E w ng audio i h buf hs hb h1 h2] at hr
    simp only [Option.some.injEq, Prod.mk.injEq] at hr
    obtain ⟨rfl, rfl, rfl⟩ := hr
    refine ⟨rfl, rfl, rfl, rfl, fun k hk => ?_, _, rfl, ?_⟩
    · simp [Function.update_noteq hk]
    · simp only [ChanOutcome, hs]
      refine ⟨buf, _, hb, h1, h2, ?_, ⟨_, rfl⟩, rfl, by simp, by simp⟩
      rw [E.run_length]
      unfold engine_input
      rw [List.length_append, List.length_map, List.length_take, List.length_drop]
      omega

theorem ChanOutcome_congr {σ : Type} (E : Engine σ) (ng ng1 : noise_suppress_data) (audio a1 : obs_audio_data)
    (ng' : noise_suppress_data) (a' : obs_audio_data) (i : Fin 2) (evs : List Event)
    (hst : ng1.state = ng.state) (hl : ng1.suppress_level = ng.suppress_level)
    (hb : ng1.segment_buffer i = ng.segment_buffer i) (hd : a1.data i = audio.data i)
    (hf : a1.frames = audio.frames) (h : ChanOutcome E ng1 a1 ng' a' i evs) :
    ChanOutcome E ng audio ng' a' i evs := by
  unfold ChanOutcome at h ⊢
  unfold engine_input plane_output at h ⊢
  rw [hst, hl, hb, hd, hf] at h
  exact h

theorem ChanOutcome_later {σ : Type} (E : Engine σ) (ng : noise_suppress_data) (audio : obs_audio_data)
    (ng1 ng' : noise_suppress_data) (a1 a' : obs_audio_data) (i : Fin 2)
    (evs : List Event) (hb : ng'.segment_buffer i = ng1.segment_buffer i)
    (hd : a'.data i = a1.data i) (h : ChanOutcome E ng audio ng1 a1 i evs) :
    ChanOutcome E ng audio ng' a' i evs := by
  unfold ChanOutcome at h ⊢
  rw [hb, hd]
  exact h

/-- A completed call of `noise_suppress_filter_audio`, slot by slot. -/
theorem filter_audio_spec {σ : Type} (E : Engine σ) (w : World σ)
    (ng : noise_suppress_data) (audio : obs_audio_data)
    (w' : World σ) (ng' : noise_suppress_data) (a' : obs_audio_data)
    (hr : noise_suppress_filter_audio E w ng audio = some (w', ng', a')) :
    ng'.state = ng.state ∧ ng'.suppress_level = ng.suppress_level ∧
      a'.frames = audio.frames ∧ a'.timestamp = audio.timestamp ∧
      ∃ ev0 ev1, w'.log = w.log ++ (ev0 ++ ev1) ∧ ChanOutcome E ng audio ng' a' 0 ev0 ∧
        ChanOutcome E ng audio ng' a' 1 ev1 := by
  unfold noise_suppress_filter_audio at hr
  cases h0 : filter_channel E w ng audio 0 with
  | none => simp [h0] at hr
  | some r0 =>
    obtain ⟨w1, ng1, a1⟩ := r0
    simp only [h0] at hr
    obtain ⟨s0, l0, f0, t0, o0, ev0, hl0, c0⟩ := filter_channel_spec E w ng audio 0 w1 ng1 a1 h0
    obtain ⟨s1, l1, f1, t1, o1, ev1, hl1, c1⟩ :=
      filter_channel_spec E w1 ng1 a1 1 w' ng' a' hr
    have h01 : (0 : Fin 2) ≠ 1 := by decide
    have h10 : (1 : Fin 2) ≠ 0 := by decide
    refine ⟨s1.trans s0, l1.trans l0, f1.trans f0, t1.trans t0, ev0, ev1, ?_, ?_, ?_⟩
    · rw [hl1, hl0, List.append_assoc]
    · exact ChanOutcome_later E ng audio ng1 ng' a1 a' 0 ev0 (o1 0 h01).1 (o1 0 h01).2 c0
    · exact ChanOutcome_congr E ng ng1 audio a1 ng' a' 1 ev1 s0 l0 (o0 1 h10).1 (o0 1 h10).2 f0 c1

/-- The call completes exactly when instance and block are fit for it. -/
theorem filter_audio_isSome_iff {σ : Type} (E : Engine σ) (w : World σ)
    (ng : noise_suppress_data) (audio : obs_audio_data) :
    (noise_suppress_filter_audio E w ng audio).isSome ↔ Ready ng audio := by
  have h01 : (0 : Fin 2) ≠ 1 := by decide
  have h10 : (1 : Fin 2) ≠ 0 := by decide
  constructor
  · intro h
    obtain ⟨⟨w', ng', a'⟩, hr⟩ := Option.isSome_iff_exists.1 h
    obtain ⟨_, _, _, _, ev0, ev1, _, c0, c1⟩ := filter_audio_spec E w ng audio w' ng' a' hr
    intro i h hs
    have key : ∀ evs, ChanOutcome E ng audio ng' a' i evs →
        ∃ buf, ng.segment_buffer i = some buf ∧ audio.frames ≤ buf.length ∧
          audio.frames ≤ (audio.data i).length := by
      intro evs hc
      simp only [ChanOutcome, hs] at hc
      obtain ⟨buf, out, hb, h1, h2, _⟩ := hc
      exact ⟨buf, hb, h1, h2⟩
    fin_cases i
    · exact key ev0 c0
    · exact key ev1 c1
  · intro hready
    unfold noise_suppress_filter_audio
    have step0 : ∃ r0, filter_channel E w ng audio 0 = some r0 := by
      cases hs : ng.state 0 with
      | none => exact ⟨_, filter_channel_unbound E w ng audio 0 hs⟩
      | some h =>
        obtain ⟨buf, hb, h1, h2⟩ := hready 0 h hs
        exact ⟨_, filter_channel_bound E w ng audio 0 h buf hs hb h1 h2⟩
    obtain ⟨⟨w1, ng1, a1⟩, h0⟩ := step0
    obtain ⟨s0, l0, f0, t0, o0, ev0, hl0, c0⟩ := filter_channel_spec E w ng audio 0 w1 ng1 a1 h0
    simp only [h0]
    cases hs : ng1.state 1 with
    | none => rw [filter_channel_unbound E w1 ng1 a1 1 hs]; rfl
    | some h =>
      rw [s0] at hs
      obtain ⟨buf, hb, h1, h2⟩ := hready 1 h hs
      rw [← s0] at hs
      rw [filter_channel_bound E w1 ng1 a1 1 h buf hs (by rw [(o0 1 h10).1]; exact hb)
        (by rw [f0]; exact h1) (by rw [f0, (o0 1 h10).2]; exact h2)]
      rfl

theorem trunc_of_nonneg (x : ℚ) (h : 0 ≤ x) : trunc x = ⌊x⌋ := by
  unfold trunc
  rw [Rat.floor_def, Int.tdiv_eq_ediv (Rat.num_nonneg.2 h) (Int.ofNat_nonneg _)]

theorem trunc_neg (x : ℚ) : trunc (-x) = -trunc x := by
  unfold trunc
  rw [Rat.neg_num, Rat.neg_den, Int.neg_tdiv]

theorem trunc_of_nonpos (x : ℚ) (h : x ≤ 0) : trunc x = ⌈x⌉ := by
  have h1 : trunc (-x) = ⌊-x⌋ := trunc_of_nonneg (-x) (by linarith)
  rw [trunc_neg, Int.floor_neg] at h1
  exact neg_injective h1

theorem trunc_bounds_nonneg (x : ℚ) (h : 0 ≤ x) : x - 1 < (trunc x : ℚ) ∧ (trunc x : ℚ) ≤ x := by
  rw [trunc_of_nonneg x h]
  exact ⟨Int.sub_one_lt_floor x, Int.floor_le x⟩

theorem trunc_bounds_nonpos (x : ℚ) (h : x ≤ 0) : x ≤ (trunc x : ℚ) ∧ (trunc x : ℚ) < x + 1 := by
  rw [trunc_of_nonpos x h]
  exact ⟨Int.le_ceil x, Int.ceil_lt_add_one x⟩

theorem trunc_mono_range (x : ℚ) (lo hi : Int) (h1 : (lo : ℚ) ≤ x) (h2 : x ≤ (hi : ℚ))
    (hlo : lo ≤ 0) (hhi : 0 ≤ hi) : lo ≤ trunc x ∧ trunc x ≤ hi := by
  rcases le_total 0 x with h | h
  · rw [trunc_of_nonneg x h]
    exact ⟨le_trans hlo (Int.floor_nonneg.2 h), Int.floor_le_iff.2 (by
      have : x < (hi : ℚ) + 1 := by linarith
      exact_mod_cast this)⟩
  · rw [trunc_of_nonpos x h]
    exact ⟨Int.le_ceil_iff.2 (by
      have : (lo : ℚ) - 1 < x := by linarith
      exact_mod_cast this), le_trans (Int.ceil_le.2 (by exact_mod_cast h)) hhi⟩

theorem wrap16_of_range (n : Int) (h1 : -32768 ≤ n) (h2 : n ≤ 32767) : wrap16 n = n := by
  unfold wrap16
  omega

theorem sample_to_16_exact_of_range (f : ℚ) (h1 : -32768 ≤ f * 32767)
    (h2 : f * 32767 ≤ 32767) : sample_to_16_exact f = trunc (f * 32767) := by
  unfold sample_to_16_exact to_int16 c_32_to_16
  obtain ⟨a, b⟩ := trunc_mono_range (f * 32767) (-32768) 32767 (by exact_mod_cast h1)
    (by exact_mod_cast h2) (by decide) (by decide)
  exact wrap16_of_range _ a b

theorem round_even_floor_le (r : ℚ) : ⌊r⌋ ≤ round_even r := by
  rw [Rat.floor_def]
  unfold round_even
  split_ifs <;> omega

theorem round_even_le_ceil (r : ℚ) : round_even r ≤ ⌈r⌉ := by
  have hden : (0 : Int) < (r.den : Int) := by exact_mod_cast r.den_pos
  have hfl : r.num / (r.den : Int) ≤ ⌈r⌉ := by
    rw [← Rat.floor_def]
    exact Int.floor_le_ceil r
  have hup : 0 < r.num % (r.den : Int) → r.num / (r.den : Int) + 1 ≤ ⌈r⌉ := by
    intro hrem
    rw [Int.add_one_le_iff, Int.lt_ceil]
    have hdq : (0 : ℚ) < (r.den : ℚ) := by exact_mod_cast r.den_pos
    have := Int.emod_add_ediv r.num (r.den : Int)
    have h2 : (r.num / (r.den : Int)) * (r.den : Int) < r.num := by nlinarith
    have h3 : ((r.num / (r.den : Int) : ℤ) : ℚ) * (r.den : ℚ) < r * (r.den : ℚ) := by
      rw [Rat.mul_den_eq_num]
      exact_mod_cast h2
    exact lt_of_mul_lt_mul_right h3 hdq.le
  have hrem : 0 ≤ r.num % (r.den : Int) := Int.emod_nonneg _ (ne_of_gt hden)
  unfold round_even
  split_ifs with h1 h2 h3
  · exact hfl
  · exact hup (by omega)
  · exact hfl
  · exact hup (by omega)

/-- Below `2 ^ 24` the binary32 grid contains the integers, so rounding does not
cross one. -/
theorem fl32_between (q : ℚ) (h : |q| < (2 : ℚ) ^ (24 : ℤ)) :
    ((⌊q⌋ : Int) : ℚ) ≤ fl32 q ∧ fl32 q ≤ ((⌈q⌉ : Int) : ℚ) := by
  have he : max (Int.log 2 |q|) (-126) - 23 ≤ 0 := by
    have h1 : Int.log 2 |q| ≤ 23 := by
      rcases eq_or_lt_of_le (abs_nonneg q) with h0 | h0
      · rw [← h0, Int.log_of_right_le_zero 2 le_rfl]
        decide
      · have := (Int.lt_zpow_iff_log_lt (b := 2) (x := 24) (by norm_num) h0).1 (by exact_mod_cast h)
        omega
    have h2 : max (Int.log 2 |q|) (-126) ≤ 23 := max_le h1 (by decide)
    omega
  unfold fl32
  generalize max (Int.log 2 |q|) (-126) - 23 = e at he
  obtain ⟨n, rfl⟩ : ∃ n : ℕ, e = -(n : ℤ) := ⟨(-e).toNat, by omega⟩
  have hN : (2 : ℚ) ^ (-(n : ℤ)) = ((2 ^ n : ℕ) : ℚ)⁻¹ := by
    rw [zpow_neg, zpow_natCast]
    push_cast
    rfl
  rw [hN]
  have hpos : (0 : ℚ) < ((2 ^ n : ℕ) : ℚ) := by positivity
  rw [div_inv_eq_mul]
  constructor
  · rw [← div_eq_mul_inv, le_div_iff₀ hpos]
    have h1 : ((⌊q⌋ : Int) : ℚ) * ((2 ^ n : ℕ) : ℚ) ≤ q * ((2 ^ n : ℕ) : ℚ) :=
      mul_le_mul_of_nonneg_right (Int.floor_le q) hpos.le
    have h2 : (⌊q⌋ * ((2 ^ n : ℕ) : ℤ) : ℤ) ≤ ⌊q * ((2 ^ n : ℕ) : ℚ)⌋ :=
      Int.le_floor.2 (by push_cast; push_cast at h1; exact h1)
    have h3 := le_trans h2 (round_even_floor_le (q * ((2 ^ n : ℕ) : ℚ)))
    have h4 : ((⌊q⌋ * ((2 ^ n : ℕ) : ℤ) : ℤ) : ℚ) ≤ (round_even (q * ((2 ^ n : ℕ) : ℚ)) : ℚ) := by
      exact_mod_cast h3
    push_cast at h4 ⊢
    exact h4
  · rw [← div_eq_mul_inv, div_le_iff₀ hpos]
    have h1 : q * ((2 ^ n : ℕ) : ℚ) ≤ ((⌈q⌉ : Int) : ℚ) * ((2 ^ n : ℕ) : ℚ) :=
      mul_le_mul_of_nonneg_right (Int.le_ceil q) hpos.le
    have h2 : ⌈q * ((2 ^ n : ℕ) : ℚ)⌉ ≤ (⌈q⌉ * ((2 ^ n : ℕ) : ℤ) : ℤ) :=
      Int.ceil_le.2 (by push_cast; push_cast at h1; exact h1)
    have h3 := le_trans (round_even_le_ceil (q * ((2 ^ n : ℕ) : ℚ))) h2
    have h4 : (round_even (q * ((2 ^ n : ℕ) : ℚ)) : ℚ) ≤ ((⌈q⌉ * ((2 ^ n : ℕ) : ℤ) : ℤ) : ℚ) := by
      exact_mod_cast h3
    push_cast at h4 ⊢
    exact h4

/-- Truncation of the binary32 rounding stays between floor and ceiling. -/
theorem trunc_fl32_between (q : ℚ) (h : |q| < (2 : ℚ) ^ (24 : ℤ)) :
    ⌊q⌋ ≤ trunc (fl32 q) ∧ trunc (fl32 q) ≤ ⌈q⌉ := by
  obtain ⟨a, b⟩ := fl32_between q h
  rcases le_total 0 (fl32 q) with h0 | h0
  · rw [trunc_of_nonneg _ h0]
    exact ⟨Int.le_floor.2 a, by
      have : ((⌊fl32 q⌋ : Int) : ℚ) ≤ ((⌈q⌉ : Int) : ℚ) := le_trans (Int.floor_le _) b
      exact_mod_cast this⟩
  · rw [trunc_of_nonpos _ h0]
    exact ⟨by
      have : ((⌊q⌋ : Int) : ℚ) ≤ ((⌈fl32 q⌉ : Int) : ℚ) := le_trans a (Int.le_ceil _)
      exact_mod_cast this, Int.ceil_le.2 b⟩

theorem log2_eq (q : ℚ) (e : ℤ) (h1 : (2 : ℚ) ^ e ≤ q) (h2 : q < (2 : ℚ) ^ (e + 1)) :
    Int.log 2 q = e := by
  have hq : 0 < q := lt_of_lt_of_le (zpow_pos (by norm_num) e) h1
  have a : e ≤ Int.log 2 q :=
    (Int.zpow_le_iff_le_log (b := 2) (by norm_num) hq).1 (by exact_mod_cast h1)
  have b : Int.log 2 q < e + 1 :=
    (Int.lt_zpow_iff_log_lt (b := 2) (by norm_num) hq).1 (by exact_mod_cast h2)
  omega

/-- The binary32 rounding of a value whose binary exponent `e` is known. -/
theorem fl32_eval (q : ℚ) (e : ℤ) (h1 : (2 : ℚ) ^ e ≤ |q|) (h2 : |q| < (2 : ℚ) ^ (e + 1))
    (he : -126 ≤ e) :
    fl32 q = (round_even (q / (2 : ℚ) ^ (e - 23)) : ℚ) * (2 : ℚ) ^ (e - 23) := by
  unfold fl32
  rw [log2_eq |q| e h1 h2, max_eq_left he]

theorem sample_to_16_of_fit (f : ℚ) (h1 : -32768 ≤ trunc (fl32 (f * 32767)))
    (h2 : trunc (fl32 (f * 32767)) ≤ 32767) : sample_to_16 f = trunc (fl32 (f * 32767)) := by
  unfold sample_to_16 to_int16 c_32_to_16
  exact wrap16_of_range _ h1 h2

theorem trunc_fl32_near (p : ℚ) (h1 : -32768 ≤ p) (h2 : p ≤ 32767) :
    -32768 ≤ trunc (fl32 p) ∧ trunc (fl32 p) ≤ 32767 ∧
      p - 1 < (trunc (fl32 p) : ℚ) ∧ (trunc (fl32 p) : ℚ) < p + 1 := by
  have hp : |p| < (2 : ℚ) ^ (24 : ℤ) := by
    rw [abs_lt]
    norm_num
    constructor <;> linarith
  obtain ⟨a, b⟩ := trunc_fl32_between p hp
  have a1 : (-32768 : ℤ) ≤ ⌊p⌋ := Int.le_floor.2 (by exact_mod_cast h1)
  have b1 : ⌈p⌉ ≤ (32767 : ℤ) := Int.ceil_le.2 (by exact_mod_cast h2)
  have a2 : p - 1 < ((⌊p⌋ : ℤ) : ℚ) := Int.sub_one_lt_floor p
  have b2 : ((⌈p⌉ : ℤ) : ℚ) < p + 1 := Int.ceil_lt_add_one p
  have a3 : ((⌊p⌋ : ℤ) : ℚ) ≤ (trunc (fl32 p) : ℚ) := by exact_mod_cast a
  have b3 : (trunc (fl32 p) : ℚ) ≤ ((⌈p⌉ : ℤ) : ℚ) := by exact_mod_cast b
  exact ⟨le_trans a1 a, le_trans b b1, lt_of_lt_of_le a2 a3, lt_of_le_of_lt b3 b2⟩

theorem round_even_intCast (z : ℤ) : round_even (z : ℚ) = z := by
  simp [round_even]

/-- The quotient of a 16 bit integer by `2 ^ 15` is a binary32 value: the
division of the second loop rounds nothing. -/
theorem fl32_sample_to_32 (v : Int) (h1 : -32768 ≤ v) (h2 : v ≤ 32767) :
    fl32 (sample_to_32 v) = sample_to_32 v := by
  unfold sample_to_32 c_16_to_32
  have hq : |(v : ℚ) / 32768| < (2 : ℚ) ^ (1 : ℤ) := by
    have a : (-32768 : ℚ) ≤ (v : ℚ) := by exact_mod_cast h1
    have b : (v : ℚ) ≤ 32767 := by exact_mod_cast h2
    rw [abs_lt]
    constructor
    · rw [lt_div_iff₀ (by norm_num)]
      norm_num
      linarith
    · rw [div_lt_iff₀ (by norm_num)]
      norm_num
      linarith
  have hlog : Int.log 2 |(v : ℚ) / 32768| ≤ 0 := by
    rcases eq_or_lt_of_le (abs_nonneg ((v : ℚ) / 32768)) with h0 | h0
    · rw [← h0, Int.log_of_right_le_zero 2 le_rfl]
    · have := (Int.lt_zpow_iff_log_lt (b := 2) (x := 1) (by norm_num) h0).1
        (by exact_mod_cast hq)
      omega
  have hk : max (Int.log 2 |(v : ℚ) / 32768|) (-126) - 23 ≤ -23 := by
    have : max (Int.log 2 |(v : ℚ) / 32768|) (-126) ≤ 0 := max_le hlog (by decide)
    omega
  unfold fl32
  generalize max (Int.log 2 |(v : ℚ) / 32768|) (-126) - 23 = k at hk
  obtain ⟨m, rfl⟩ : ∃ m : ℕ, k = -((15 : ℤ) + m) := ⟨(-k - 15).toNat, by omega⟩
  have hpow : (2 : ℚ) ^ (-((15 : ℤ) + m)) = (32768 * (2 : ℚ) ^ m)⁻¹ := by
    rw [zpow_neg, zpow_add₀ (by norm_num), zpow_natCast]
    norm_num
  have hint : (v : ℚ) / 32768 / (32768 * (2 : ℚ) ^ m)⁻¹ = ((v * 2 ^ m : ℤ) : ℚ) := by
    push_cast
    field_simp
    ring
  rw [hpow, hint, round_even_intCast]
  push_cast
  field_simp
  ring

theorem fl32_half : fl32 (1 / 2 * 32767) = 32767 / 2 := by
  rw [fl32_eval _ 13 (by norm_num [abs_of_pos]) (by norm_num [abs_of_pos]) (by decide)]
  norm_num [round_even]

theorem fl32_quarter : fl32 (-1 / 4 * 32767) = -32767 / 4 := by
  rw [fl32_eval _ 12 (by norm_num [abs_of_neg]) (by norm_num [abs_of_neg]) (by decide)]
  norm_num [round_even]

theorem fl32_two : fl32 (2 * 32767) = 65534 := by
  rw [fl32_eval _ 15 (by norm_num [abs_of_pos]) (by norm_num [abs_of_pos]) (by decide)]
  norm_num [round_even]

theorem fl32_nine_tenths : fl32 (9 / 10 * 32767) = 7549517 / 256 := by
  rw [fl32_eval _ 14 (by norm_num [abs_of_pos]) (by norm_num [abs_of_pos]) (by decide)]
  norm_num [round_even]

/-- The rounding of the product shows at the sample `32769 / 65536` (the binary32
value `0x3f000100`): the exact product is `16384 - 2 ^ (-16)` and truncates to
16383, the binary32 product is 16384. -/
theorem sample_to_16_rounds_product :
    trunc (32769 / 65536 * 32767) = 16383 ∧ sample_to_16 (32769 / 65536) = 16384 := by
  constructor
  · norm_num [trunc]
    decide
  · unfold sample_to_16 c_32_to_16
    rw [fl32_eval _ 13 (by norm_num [abs_of_pos]) (by norm_num [abs_of_pos]) (by decide)]
    norm_num [round_even, to_int16, trunc, wrap16]

theorem ensure_state_bound {σ : Type} (E : Engine σ) (w : World σ)
    (ng : noise_suppress_data) (i : Fin 2) (seg rate : Nat) (h : Handle)
    (hs : ng.state i = some h) : ensure_state E w ng i seg rate = (w, ng) := by
  simp [ensure_state, hs]

theorem ensure_state_reuse {σ : Type} (E : Engine σ) (w : World σ)
    (ng : noise_suppress_data) (i : Fin 2) (seg rate : Nat) (b : List Int)
    (hs : ng.state i = none) (hb : ng.segment_buffer i = some b) :
    ensure_state E w ng i seg rate =
      ({ eng := (E.state_init w.eng seg rate).2,
         log := w.log ++ [Event.init i seg rate (E.state_init w.eng seg rate).1] },
       { ng with state := Function.update ng.state i (E.state_init w.eng seg rate).1 }) := by
  simp [ensure_state, hs, hb]

theorem ensure_state_create {σ : Type} (E : Engine σ) (w : World σ)
    (ng : noise_suppress_data) (i : Fin 2) (seg rate : Nat)
    (hs : ng.state i = none) (hb : ng.segment_buffer i = none) :
    ensure_state E w ng i seg rate =
      ({ eng := (E.state_init w.eng seg rate).2,
         log := w.log ++ [Event.init i seg rate (E.state_init w.eng seg rate).1,
           Event.alloc i seg] },
       { ng with
         state := Function.update ng.state i (E.state_init w.eng seg rate).1,
         segment_buffer :=
           Function.update ng.segment_buffer i (some ((List.range seg).map E.fresh)) }) := by
  simp [ensure_state, hs, hb]

/-- What the block guarding slot `i` does, in all three cases. -/
theorem ensure_state_spec {σ : Type} (E : Engine σ) (w : World σ)
    (ng : noise_suppress_data) (i : Fin 2) (seg rate : Nat) :
    (ensure_state E w ng i seg rate).2.suppress_level = ng.suppress_level ∧
      (∀ k, k ≠ i → (ensure_state E w ng i seg rate).2.state k = ng.state k ∧
        (ensure_state E w ng i seg rate).2.segment_buffer k = ng.segment_buffer k) ∧
      ∃ evs, (ensure_state E w ng i seg rate).1.log = w.log ++ evs ∧
        (∀ e ∈ evs, e.chan = i) ∧
        ((∃ h, ng.state i = some h ∧ evs = [] ∧ ensure_state E w ng i seg rate = (w, ng)) ∨
         (ng.state i = none ∧
            (ensure_state E w ng i seg rate).2.state i = (E.state_init w.eng seg rate).1 ∧
            (ensure_state E w ng i seg rate).1.eng = (E.state_init w.eng seg rate).2 ∧
            ((∃ b, ng.segment_buffer i = some b ∧
                (ensure_state E w ng i seg rate).2.segment_buffer i = some b ∧
                evs = [Event.init i seg rate (E.state_init w.eng seg rate).1]) ∨
             (ng.segment_buffer i = none ∧
                (ensure_state E w ng i seg rate).2.segment_buffer i =
                  some ((List.range seg).map E.fresh) ∧
                evs = [Event.init i seg rate (E.state_init w.eng seg rate).1,
                  Event.alloc i seg])))) := by
  cases hs : ng.state i with
  | some h =>
    rw [ensure_state_bound E w ng i seg rate h hs]
    exact ⟨rfl, fun k _ => ⟨rfl, rfl⟩, [], by simp, by simp, Or.inl ⟨h, rfl, rfl, rfl⟩⟩
  | none =>
    cases hb : ng.segment_buffer i with
    | some b =>
      rw [ensure_state_reuse E w ng i seg rate b hs hb]
      refine ⟨rfl, fun k hk => ⟨by simp [Function.update_noteq hk], rfl⟩, _, rfl, ?_, Or.inr ?_⟩
      · simp [Event.chan]
      · exact ⟨rfl, by simp, rfl, Or.inl ⟨b, rfl, hb, rfl⟩⟩
    | none =>
      rw [ensure_state_create E w ng i seg rate hs hb]
      refine ⟨rfl, fun k hk => ⟨by simp [Function.update_noteq hk],
        by simp [Function.update_noteq hk]⟩, _, rfl, ?_, Or.inr ?_⟩
      · simp [Event.chan]
      · exact ⟨rfl, by simp, rfl, Or.inr ⟨rfl, by simp, rfl⟩⟩

theorem ensure_state_outcome {σ : Type} (E : Engine σ) (w : World σ)
    (ng : noise_suppress_data) (i : Fin 2) (seg rate : Nat) :
    ∃ evs, (ensure_state E w ng i seg rate).1.log = w.log ++ evs ∧
      SlotOutcome E ng (ensure_state E w ng i seg rate).2 i seg rate evs := by
  obtain ⟨_, _, evs, hlog, _, hcase⟩ := ensure_state_spec E w ng i seg rate
  refine ⟨evs, hlog, ?_⟩
  unfold SlotOutcome
  rcases hcase with ⟨h, hs, hev, heq⟩ | ⟨hs, hst, _, hbuf⟩
  · rw [hs, heq]
    exact ⟨hev, hs, rfl⟩
  · rw [hs]
    refine ⟨⟨w.eng, hst⟩, ?_⟩
    rcases hbuf with ⟨b, hb, hb', hev⟩ | ⟨hb, hb', hev⟩
    · rw [hb, hst]
      exact ⟨hev, hb'⟩
    · rw [hb, hst]
      exact ⟨hev, hb'⟩

theorem SlotOutcome_congr {σ : Type} (E : Engine σ) (ng ng1 ng' : noise_suppress_data)
    (i : Fin 2) (seg rate : Nat) (evs : List Event) (hs : ng1.state i = ng.state i)
    (hb : ng1.segment_buffer i = ng.segment_buffer i)
    (h : SlotOutcome E ng1 ng' i seg rate evs) : SlotOutcome E ng ng' i seg rate evs := by
  unfold SlotOutcome at h ⊢
  rw [hs, hb] at h
  exact h

theorem SlotOutcome_later {σ : Type} (E : Engine σ) (ng ng1 ng' : noise_suppress_data)
    (i : Fin 2) (seg rate : Nat) (evs : List Event) (hs : ng'.state i = ng1.state i)
    (hb : ng'.segment_buffer i = ng1.segment_buffer i)
    (h : SlotOutcome E ng ng1 i seg rate evs) : SlotOutcome E ng ng' i seg rate evs := by
  unfold SlotOutcome at h ⊢
  rw [hs, hb]
  exact h

theorem update_unfold {σ : Type} (E : Engine σ) (w : World σ) (ng : noise_suppress_data)
    (s : Int) (rate channels : Nat) :
    noise_suppress_update E w ng s rate channels =
      if channels > 1 then
        ensure_state E
          (ensure_state E w { ng with suppress_level := int_cast s } 0 (rate / 100) rate).1
          (ensure_state E w { ng with suppress_level := int_cast s } 0 (rate / 100) rate).2
          1 (rate / 100) rate
      else ensure_state E w { ng with suppress_level := int_cast s } 0 (rate / 100) rate :=
  rfl

/-- A call of `noise_suppress_update`, slot by slot. -/
theorem update_spec {σ : Type} (E : Engine σ) (w : World σ) (ng : noise_suppress_data)
    (s : Int) (rate channels : Nat) :
    (noise_suppress_update E w ng s rate channels).2.suppress_level = int_cast s ∧
      ∃ ev0 ev1, (noise_suppress_update E w ng s rate channels).1.log = w.log ++ (ev0 ++ ev1) ∧
        (∀ e ∈ ev0, e.chan = 0) ∧ (∀ e ∈ ev1, e.chan = 1) ∧
        SlotOutcome E ng (noise_suppress_update E w ng s rate channels).2 0 (rate / 100) rate
          ev0 ∧
        if channels > 1 then
          SlotOutcome E ng (noise_suppress_update E w ng s rate channels).2 1 (rate / 100)
            rate ev1
        else
          ev1 = [] ∧
            (noise_suppress_update E w ng s rate channels).2.state 1 = ng.state 1 ∧
            (noise_suppress_update E w ng s rate channels).2.segment_buffer 1 =
              ng.segment_buffer 1 := by
  have h01 : (0 : Fin 2) ≠ 1 := by decide
  have h10 : (1 : Fin 2) ≠ 0 := by decide
  rw [update_unfold]
  obtain ⟨l0, o0, ev0, hlog0, hch0, -⟩ :=
    ensure_state_spec E w { ng with suppress_level := int_cast s } 0 (rate / 100) rate
  obtain ⟨ev0', hlog0', out0⟩ :=
    ensure_state_outcome E w { ng with suppress_level := int_cast s } 0 (rate / 100) rate
  have hev : ev0' = ev0 := List.append_cancel_left (hlog0'.symm.trans hlog0)
  subst hev
  have out0' : SlotOutcome E ng
      (ensure_state E w { ng with suppress_level := int_cast s } 0 (rate / 100) rate).2 0
      (rate / 100) rate ev0' :=
    SlotOutcome_congr E ng _ _ 0 _ _ _ rfl rfl out0
  by_cases hc : channels > 1
  · simp only [if_pos hc]
    obtain ⟨l1, o1, ev1, hlog1, hch1, -⟩ :=
      ensure_state_spec E
        (ensure_state E w { ng with suppress_level := int_cast s } 0 (rate / 100) rate).1
        (ensure_state E w { ng with suppress_level := int_cast s } 0 (rate / 100) rate).2
        1 (rate / 100) rate
    obtain ⟨ev1', hlog1', out1⟩ :=
      ensure_state_outcome E
        (ensure_state E w { ng with suppress_level := int_cast s } 0 (rate / 100) rate).1
        (ensure_state E w { ng with suppress_level := int_cast s } 0 (rate / 100) rate).2
        1 (rate / 100) rate
    have hev : ev1' = ev1 := List.append_cancel_left (hlog1'.symm.trans hlog1)
    subst hev
    refine ⟨l1.trans l0, ev0', ev1', ?_, hch0, hch1, ?_, ?_⟩
    · rw [hlog1, hlog0, List.append_assoc]
    · exact SlotOutcome_later E ng _ _ 0 _ _ _ (o1 0 h01).1 (o1 0 h01).2 out0'
    · exact SlotOutcome_congr E ng _ _ 1 _ _ _ (o0 1 h10).1 (o0 1 h10).2 out1
  · simp only [if_neg hc]
    refine ⟨l0, ev0', [], ?_, hch0, by simp, out0', rfl, (o0 1 h10).1, (o0 1 h10).2⟩
    rw [hlog0, List.append_nil]

theorem drop_log {σ : Type} (w w' : World σ) (evs : List Event)
    (h : w'.log = w.log ++ evs) : w'.log.drop w.log.length = evs := by
  rw [h, List.drop_left]

theorem filter_chan_zero (ev0 ev1 : List Event) (h0 : ∀ e ∈ ev0, e.chan = 0)
    (h1 : ∀ e ∈ ev1, e.chan = 1) :
    (ev0 ++ ev1).filter (fun e => decide (e.chan = 0)) = ev0 := by
  rw [List.filter_append, List.filter_eq_self.2 (fun e he => by simp [h0 e he]),
    List.filter_eq_nil_iff.2 (fun e he => by simp [h1 e he]), List.append_nil]

theorem filter_chan_one (ev0 ev1 : List Event) (h0 : ∀ e ∈ ev0, e.chan = 0)
    (h1 : ∀ e ∈ ev1, e.chan = 1) :
    (ev0 ++ ev1).filter (fun e => decide (e.chan = 1)) = ev1 := by
  rw [List.filter_append, List.filter_eq_nil_iff.2 (fun e he => by simp [h0 e he]),
    List.filter_eq_self.2 (fun e he => by simp [h1 e he]), List.nil_append]

/-- The calls a completed `noise_suppress_update` logs for slot `i`, and what it
leaves in the slot: nothing changes in a bound slot; an unbound slot that is
reached gets the result of `init` and, when it has no buffer, a new buffer. -/
theorem update_slot {σ : Type} (E : Engine σ) (w : World σ) (ng : noise_suppress_data)
    (s : Int) (rate channels : Nat) (i : Fin 2) :
    ∃ evs,
      ((noise_suppress_update E w ng s rate channels).1.log.drop w.log.length).filter
          (fun e => decide (e.chan = i)) = evs ∧
        if i = 0 ∨ channels > 1 then
          SlotOutcome E ng (noise_suppress_update E w ng s rate channels).2 i (rate / 100)
            rate evs
        else
          evs = [] ∧
            (noise_suppress_update E w ng s rate channels).2.state i = ng.state i ∧
            (noise_suppress_update E w ng s rate channels).2.segment_buffer i =
              ng.segment_buffer i := by
  obtain ⟨_, ev0, ev1, hlog, h0, h1, o0, o1⟩ := update_spec E w ng s rate channels
  rw [drop_log w _ _ hlog]
  fin_cases i
  · refine ⟨ev0, filter_chan_zero ev0 ev1 h0 h1, ?_⟩
    simpa using o0
  · refine ⟨ev1, filter_chan_one ev0 ev1 h0 h1, ?_⟩
    by_cases hc : channels > 1
    · simpa [hc] using o1
    · simpa [hc] using o1

theorem SlotOutcome_isSome {σ : Type} (E : Engine σ) (ng ng' : noise_suppress_data)
    (i : Fin 2) (seg rate : Nat) (evs : List Event) (hinit : InitSucceeds E)
    (h : SlotOutcome E ng ng' i seg rate evs) : (ng'.state i).isSome = true := by
  unfold SlotOutcome at h
  cases hs : ng.state i with
  | some hd =>
    rw [hs] at h
    rw [h.2.1]
    rfl
  | none =>
    rw [hs] at h
    obtain ⟨⟨e, he⟩, _⟩ := h
    rw [he]
    exact hinit e seg rate

theorem SlotOutcome_bound {σ : Type} (E : Engine σ) (ng ng' : noise_suppress_data)
    (i : Fin 2) (seg rate : Nat) (evs : List Event) (hd : Handle)
    (hs : ng.state i = some hd) (h : SlotOutcome E ng ng' i seg rate evs) :
    evs = [] ∧ ng'.state i = some hd ∧ ng'.segment_buffer i = ng.segment_buffer i := by
  unfold SlotOutcome at h
  rw [hs] at h
  exact h

/-- A bound slot is left alone by `noise_suppress_update`. -/
theorem update_keeps_bound {σ : Type} (E : Engine σ) (w : World σ)
    (ng : noise_suppress_data) (s : Int) (rate channels : Nat) (i : Fin 2) (hd : Handle)
    (hs : ng.state i = some hd) :
    (noise_suppress_update E w ng s rate channels).2.state i = some hd ∧
      (noise_suppress_update E w ng s rate channels).2.segment_buffer i =
        ng.segment_buffer i ∧
      ((noise_suppress_update E w ng s rate channels).1.log.drop w.log.length).filter
          (fun e => decide (e.chan = i)) = [] := by
  obtain ⟨evs, hev, hcase⟩ := update_slot E w ng s rate channels i
  by_cases hc : i = 0 ∨ channels > 1
  · rw [if_pos hc] at hcase
    obtain ⟨a, b, c⟩ := SlotOutcome_bound E ng _ i _ _ evs hd hs hcase
    exact ⟨b, c, by rw [hev, a]⟩
  · rw [if_neg hc] at hcase
    obtain ⟨a, b, c⟩ := hcase
    exact ⟨by rw [b, hs], c, by rw [hev, a]⟩

/-- With an engine whose `init` never fails, the slots reached by
`noise_suppress_update` are bound afterwards. -/
theorem update_binds {σ : Type} (E : Engine σ) (w : World σ) (ng : noise_suppress_data)
    (s : Int) (rate channels : Nat) (i : Fin 2) (hinit : InitSucceeds E)
    (hreach : i = 0 ∨ channels > 1) :
    ((noise_suppress_update E w ng s rate channels).2.state i).isSome = true := by
  obtain ⟨evs, _, hcase⟩ := update_slot E w ng s rate channels i
  rw [if_pos hreach] at hcase
  exact SlotOutcome_isSome E ng _ i _ _ evs hinit hcase

/-- A second call with slot 0 (and, for more than one channel, slot 1) bound is
without effect on the world. -/
theorem update_log_of_bound {σ : Type} (E : Engine σ) (w : World σ)
    (ng : noise_suppress_data) (s : Int) (rate channels : Nat)
    (h0 : (ng.state 0).isSome = true) (h1 : channels > 1 → (ng.state 1).isSome = true) :
    (noise_suppress_update E w ng s rate channels).1.log = w.log := by
  obtain ⟨_, ev0, ev1, hlog, _, _, o0, o1⟩ := update_spec E w ng s rate channels
  obtain ⟨hd0, hs0⟩ := Option.isSome_iff_exists.1 h0
  have e0 : ev0 = [] := (SlotOutcome_bound E ng _ 0 _ _ ev0 hd0 hs0 o0).1
  have e1 : ev1 = [] := by
    by_cases hc : channels > 1
    · rw [if_pos hc] at o1
      obtain ⟨hd1, hs1⟩ := Option.isSome_iff_exists.1 (h1 hc)
      exact (SlotOutcome_bound E ng _ 1 _ _ ev1 hd1 hs1 o1).1
    · rw [if_neg hc] at o1
      exact o1.1
  rw [hlog, e0, e1]
  simp

theorem replay_append {σ : Type} (E : Engine σ) (e : σ) (a b : List Event) :
    replay E e (a ++ b) = replay E (replay E e a) b := by
  induction a generalizing e with
  | nil => rfl
  | cons ev evs ih => exact ih (ev.apply E e)

theorem Answered_append {σ : Type} (E : Engine σ) (e : σ) (a b : List Event) :
    Answered E e (a ++ b) ↔ Answered E e a ∧ Answered E (replay E e a) b := by
  induction a generalizing e with
  | nil => simp [Answered, replay]
  | cons ev evs ih =>
    show (ev.answered E e ∧ Answered E (ev.apply E e) (evs ++ b)) ↔
      (ev.answered E e ∧ Answered E (ev.apply E e) evs) ∧
        Answered E (replay E (ev.apply E e) evs) b
    rw [ih, and_assoc]

theorem Faithful_refl {σ : Type} (E : Engine σ) (w : World σ) : Faithful E w w :=
  ⟨[], by simp, rfl, trivial⟩

theorem Faithful_trans {σ : Type} (E : Engine σ) (w w1 w2 : World σ)
    (h1 : Faithful E w w1) (h2 : Faithful E w1 w2) : Faithful E w w2 := by
  obtain ⟨a, la, ea, aa⟩ := h1
  obtain ⟨b, lb, eb, ab⟩ := h2
  refine ⟨a ++ b, by rw [lb, la, List.append_assoc], ?_, ?_⟩
  · rw [eb, ea, replay_append]
  · rw [Answered_append]
    exact ⟨aa, by rw [← ea]; exact ab⟩

/-- The engine state after a faithful step is the replay of what the step
logged, and every result logged is the engine's. -/
theorem Faithful_drop {σ : Type} (E : Engine σ) (w w' : World σ) (h : Faithful E w w') :
    w'.eng = replay E w.eng (w'.log.drop w.log.length) ∧
      Answered E w.eng (w'.log.drop w.log.length) := by
  obtain ⟨evs, hl, he, ha⟩ := h
  rw [hl, List.drop_left]
  exact ⟨he, ha⟩

theorem ensure_state_faithful {σ : Type} (E : Engine σ) (w : World σ)
    (ng : noise_suppress_data) (i : Fin 2) (seg rate : Nat) :
    Faithful E w (ensure_state E w ng i seg rate).1 := by
  cases hs : ng.state i with
  | some h =>
    rw [ensure_state_bound E w ng i seg rate h hs]
    exact Faithful_refl E w
  | none =>
    cases hb : ng.segment_buffer i with
    | some b =>
      rw [ensure_state_reuse E w ng i seg rate b hs hb]
      exact ⟨_, rfl, rfl, ⟨rfl, trivial⟩⟩
    | none =>
      rw [ensure_state_create E w ng i seg rate hs hb]
      exact ⟨_, rfl, rfl, ⟨rfl, trivial, trivial⟩⟩

/-- The engine calls of `noise_suppress_update` are the ones it logs. -/
theorem update_faithful {σ : Type} (E : Engine σ) (w : World σ) (ng : noise_suppress_data)
    (s : Int) (rate channels : Nat) :
    Faithful E w (noise_suppress_update E w ng s rate channels).1 := by
  rw [update_unfold]
  by_cases hc : channels > 1
  · rw [if_pos hc]
    exact Faithful_trans E _ _ _ (ensure_state_faithful E w _ 0 _ _)
      (ensure_state_faithful E _ _ 1 _ _)
  · rw [if_neg hc]
    exact ensure_state_faithful E w _ 0 _ _

theorem filter_channel_faithful {σ : Type} (E : Engine σ) (w : World σ)
    (ng : noise_suppress_data) (audio : obs_audio_data) (i : Fin 2)
    (w' : World σ) (ng' : noise_suppress_data) (a' : obs_audio_data)
    (hr : filter_channel E w ng audio i = some (w', ng', a')) : Faithful E w w' := by
  cases hs : ng.state i with
  | none =>
    rw [filter_channel_unbound E w ng audio i hs] at hr
    simp only [Option.some.injEq, Prod.mk.injEq] at hr
    rw [← hr.1]
    exact Faithful_refl E w
  | some h =>
    obtain ⟨buf, hb, h1, h2⟩ := filter_channel_defined E w ng audio i h _ hs hr
    rw [filter_channel_bound E w ng audio i h buf hs hb h1 h2] at hr
    simp only [Option.some.injEq, Prod.mk.injEq] at hr
    rw [← hr.1]
    exact ⟨_, rfl, rfl, ⟨trivial, rfl, trivial⟩⟩

/-- The engine calls of `noise_suppress_filter_audio` are the ones it logs. -/
theorem filter_audio_faithful {σ : Type} (E : Engine σ) (w : World σ)
    (ng : noise_suppress_data) (audio : obs_audio_data)
    (w' : World σ) (ng' : noise_suppress_data) (a' : obs_audio_data)
    (hr : noise_suppress_filter_audio E w ng audio = some (w', ng', a')) :
    Faithful E w w' := by
  unfold noise_suppress_filter_audio at hr
  cases h0 : filter_channel E w ng audio 0 with
  | none => simp [h0] at hr
  | some r0 =>
    obtain ⟨w1, ng1, a1⟩ := r0
    simp only [h0] at hr
    exact Faithful_trans E _ _ _ (filter_channel_faithful E w ng audio 0 w1 ng1 a1 h0)
      (filter_channel_faithful E w1 ng1 a1 1 w' ng' a' hr)

theorem destroy_state_faithful {σ : Type} (E : Engine σ) (w : World σ)
    (ng : noise_suppress_data) (i : Fin 2) : Faithful E w (destroy_state E w ng i).1 := by
  unfold destroy_state
  cases hs : ng.state i with
  | none => exact Faithful_refl E w
  | some h => exact ⟨_, rfl, rfl, ⟨trivial, trivial⟩⟩

theorem reset_buffer_faithful {σ : Type} (E : Engine σ) (w : World σ)
    (ng : noise_suppress_data) (i : Fin 2) : Faithful E w (reset_buffer w ng i).1 := by
  unfold reset_buffer
  cases hb : ng.segment_buffer i with
  | none => exact Faithful_refl E w
  | some b => exact ⟨_, rfl, rfl, ⟨trivial, trivial⟩⟩

/-- The engine calls of `noise_suppress_destroy` are the ones it logs. -/
theorem destroy_faithful {σ : Type} (E : Engine σ) (w : World σ)
    (ng : noise_suppress_data) : Faithful E w (noise_suppress_destroy E w ng).1 := by
  unfold noise_suppress_destroy
  exact Faithful_trans E _ _ _ (destroy_state_faithful E w ng 0)
    (Faithful_trans E _ _ _ (destroy_state_faithful E _ _ 1)
      (Faithful_trans E _ _ _ (reset_buffer_faithful E _ _ 0) (reset_buffer_faithful E _ _ 1)))

/-- C3 (as amended): a slot whose engine handle is non-null before
`noise_suppress_update` keeps the same handle and the same scratch buffer, and no
`init` or `alloc` is issued for it, whatever the settings, sample rate and channel
count.  With an engine whose `init` returns non-null handles, a second call in a
row leaves slots and log as the first call left them, and a call with two
channels after a call with one channel binds slot 1 (issuing its `init` when slot
1 was unbound) while slot 0 keeps its handle and buffer.  The calls logged are
the calls made: the engine state after the call is the one reached by making
them in order, with the results logged. -/
theorem update_retains_bindings {σ : Type} (E : Engine σ) (w : World σ)
    (ng : noise_suppress_data) (s s' : Int) (rate rate' channels : Nat) :
    (∀ i hd, ng.state i = some hd →
        (noise_suppress_update E w ng s rate channels).2.state i = some hd ∧
          (noise_suppress_update E w ng s rate channels).2.segment_buffer i =
            ng.segment_buffer i ∧
          ((noise_suppress_update E w ng s rate channels).1.log.drop w.log.length).filter
            (fun e => decide (e.chan = i)) = []) ∧
      (InitSucceeds E →
        (noise_suppress_update E (noise_suppress_update E w ng s rate channels).1
            (noise_suppress_update E w ng s rate channels).2 s' rate' channels).2.state =
          (noise_suppress_update E w ng s rate channels).2.state ∧
        (noise_suppress_update E (noise_suppress_update E w ng s rate channels).1
            (noise_suppress_update E w ng s rate channels).2 s' rate'
              channels).2.segment_buffer =
          (noise_suppress_update E w ng s rate channels).2.segment_buffer ∧
        (noise_suppress_update E (noise_suppress_update E w ng s rate channels).1
            (noise_suppress_update E w ng s rate channels).2 s' rate' channels).1.log =
          (noise_suppress_update E w ng s rate channels).1.log) ∧
      (InitSucceeds E →
        (noise_suppress_update E (noise_suppress_update E w ng s rate 1).1
            (noise_suppress_update E w ng s rate 1).2 s' rate' 2).2.state 0 =
          (noise_suppress_update E w ng s rate 1).2.state 0 ∧
        (noise_suppress_update E (noise_suppress_update E w ng s rate 1).1
            (noise_suppress_update E w ng s rate 1).2 s' rate' 2).2.segment_buffer 0 =
          (noise_suppress_update E w ng s rate 1).2.segment_buffer 0 ∧
        ((noise_suppress_update E (noise_suppress_update E w ng s rate 1).1
            (noise_suppress_update E w ng s rate 1).2 s' rate' 2).2.state 1).isSome = true ∧
        (ng.state 1 = none →
          Event.init 1 (rate' / 100) rate'
              ((noise_suppress_update E (noise_suppress_update E w ng s rate 1).1
                (noise_suppress_update E w ng s rate 1).2 s' rate' 2).2.state 1) ∈
            (noise_suppress_update E (noise_suppress_update E w ng s rate 1).1
              (noise_suppress_update E w ng s rate 1).2 s' rate' 2).1.log.drop
              (noise_suppress_update E w ng s rate 1).1.log.length)) ∧
      ((noise_suppress_update E w ng s rate channels).1.eng =
          replay E w.eng ((noise_suppress_update E w ng s rate channels).1.log.drop
            w.log.length) ∧
        Answered E w.eng ((noise_suppress_update E w ng s rate channels).1.log.drop
          w.log.length)) := by
  refine ⟨fun i hd hs => update_keeps_bound E w ng s rate channels i hd hs, ?_, ?_,
    Faithful_drop E w _ (update_faithful E w ng s rate channels)⟩
  · intro hinit
    have b0 := update_binds E w ng s rate channels 0 hinit (Or.inl rfl)
    have b1 : channels > 1 →
        ((noise_suppress_update E w ng s rate channels).2.state 1).isSome = true :=
      fun hc => update_binds E w ng s rate channels 1 hinit (Or.inr hc)
    have keep : ∀ i,
        (noise_suppress_update E (noise_suppress_update E w ng s rate channels).1
            (noise_suppress_update E w ng s rate channels).2 s' rate' channels).2.state i =
          (noise_suppress_update E w ng s rate channels).2.state i ∧
        (noise_suppress_update E (noise_suppress_update E w ng s rate channels).1
            (noise_suppress_update E w ng s rate channels).2 s' rate'
              channels).2.segment_buffer i =
          (noise_suppress_update E w ng s rate channels).2.segment_buffer i := by
      intro i
      obtain ⟨evs, _, hcase⟩ :=
        update_slot E (noise_suppress_update E w ng s rate channels).1
          (noise_suppress_update E w ng s rate channels).2 s' rate' channels i
      by_cases hc : i = 0 ∨ channels > 1
      · rw [if_pos hc] at hcase
        have hb : ((noise_suppress_update E w ng s rate channels).2.state i).isSome = true :=
          update_binds E w ng s rate channels i hinit hc
        obtain ⟨hd, hs⟩ := Option.isSome_iff_exists.1 hb
        obtain ⟨_, b, c⟩ := SlotOutcome_bound E _ _ i _ _ evs hd hs hcase
        exact ⟨by rw [b, hs], c⟩
      · rw [if_neg hc] at hcase
        exact ⟨hcase.2.1, hcase.2.2⟩
    exact ⟨funext fun i => (keep i).1, funext fun i => (keep i).2,
      update_log_of_bound E _ _ s' rate' channels b0 b1⟩
  · intro hinit
    have b0 := update_binds E w ng s rate 1 0 hinit (Or.inl rfl)
    obtain ⟨hd, hs⟩ := Option.isSome_iff_exists.1 b0
    obtain ⟨k1, k2, _⟩ :=
      update_keeps_bound E (noise_suppress_update E w ng s rate 1).1
        (noise_suppress_update E w ng s rate 1).2 s' rate' 2 0 hd hs
    refine ⟨by rw [k1, hs], k2,
      update_binds E _ _ s' rate' 2 1 hinit (Or.inr (by decide)), ?_⟩
    intro hn
    have hn1 : (noise_suppress_update E w ng s rate 1).2.state 1 = none := by
      obtain ⟨evs, _, hcase⟩ := update_slot E w ng s rate 1 1
      rw [if_neg (by decide)] at hcase
      rw [hcase.2.1, hn]
    obtain ⟨evs, hev, hcase⟩ :=
      update_slot E (noise_suppress_update E w ng s rate 1).1
        (noise_suppress_update E w ng s rate 1).2 s' rate' 2 1
    rw [if_pos (Or.inr (by decide))] at hcase
    unfold SlotOutcome at hcase
    rw [hn1] at hcase
    have hmem : Event.init 1 (rate' / 100) rate'
        ((noise_suppress_update E (noise_suppress_update E w ng s rate 1).1
          (noise_suppress_update E w ng s rate 1).2 s' rate' 2).2.state 1) ∈ evs := by
      cases hb : (noise_suppress_update E w ng s rate 1).2.segment_buffer 1 with
      | some b =>
        rw [hb] at hcase
        rw [hcase.2.1]
        simp
      | none =>
        rw [hb] at hcase
        rw [hcase.2.1]
        simp
    rw [← hev] at hmem
    exact (List.mem_filter.1 hmem).1

theorem echo_init_succeeds : InitSucceeds echo_engine := fun _ _ _ => rfl

/-- C3, a concrete instance: with the echo engine, a second call at another rate
and level changes neither the slots nor the log, and going from one channel to
two binds slot 1 and keeps slot 0. -/
theorem update_retains_bindings_witness :
    InitSucceeds echo_engine ∧
      (noise_suppress_update echo_engine
          (noise_suppress_update echo_engine world0 noise_suppress_data.fresh (-30) 48000 1).1
          (noise_suppress_update echo_engine world0 noise_suppress_data.fresh (-30) 48000 1).2
          (-60) 44100 1).1.log =
        (noise_suppress_update echo_engine world0 noise_suppress_data.fresh (-30) 48000 1).1.log ∧
      ((noise_suppress_update echo_engine
          (noise_suppress_update echo_engine world0 noise_suppress_data.fresh (-30) 48000 1).1
          (noise_suppress_update echo_engine world0 noise_suppress_data.fresh (-30) 48000 1).2
          (-60) 44100 2).2.state 1).isSome = true :=
  ⟨echo_init_succeeds,
    ((update_retains_bindings echo_engine world0 noise_suppress_data.fresh (-30) (-60) 48000
      44100 1).2.1 echo_init_succeeds).2.2,
    ((update_retains_bindings echo_engine world0 noise_suppress_data.fresh (-30) (-60) 48000
      44100 1).2.2.1 echo_init_succeeds).2.2.1⟩

/-- C3 as stated fails: with an engine whose first `init` returns null, one call
leaves slot 0 without a handle and a second call in a row gives it one, so two
calls do not yield the bindings of one call. -/
theorem update_twice_counterexample :
    (noise_suppress_update flaky_engine world0 noise_suppress_data.fresh (-30) 48000 1).2.state 0
        = none ∧
      (noise_suppress_update flaky_engine
          (noise_suppress_update flaky_engine world0 noise_suppress_data.fresh (-30) 48000 1).1
          (noise_suppress_update flaky_engine world0 noise_suppress_data.fresh (-30) 48000 1).2
          (-30) 48000 1).2.state 0 = some 1 ∧
      (noise_suppress_update flaky_engine
          (noise_suppress_update flaky_engine world0 noise_suppress_data.fresh (-30) 48000 1).1
          (noise_suppress_update flaky_engine world0 noise_suppress_data.fresh (-30) 48000 1).2
          (-30) 48000 1).1.log =
        [Event.init 0 480 48000 none, Event.alloc 0 480, Event.init 0 480 48000 (some 1)] := by
  refine ⟨by decide, by decide, by decide⟩

/-- C9: `noise_suppress_destroy` leaves both slots without engine state and
without buffer; it logs one engine `destroy` for each slot holding an engine
state, none for a slot without one, then one buffer release for each slot
holding a buffer; so for each slot the `destroy` of its engine state comes before
the release of its buffer.  The calls logged are the calls made: the engine state
it leaves is the one reached by the engine's `destroy` on the handle of slot 0,
when there is one, and then on the handle of slot 1, when there is one. -/
theorem destroy_releases {σ : Type} (E : Engine σ) (w : World σ)
    (ng : noise_suppress_data) :
    (∀ i, (noise_suppress_destroy E w ng).2.state i = none ∧
        (noise_suppress_destroy E w ng).2.segment_buffer i = none) ∧
      (noise_suppress_destroy E w ng).1.log =
        w.log ++ ((ng.state 0).toList.map (Event.destroy 0) ++
          (ng.state 1).toList.map (Event.destroy 1) ++
          (ng.segment_buffer 0).toList.map (fun _ => Event.free 0) ++
          (ng.segment_buffer 1).toList.map (fun _ => Event.free 1)) ∧
      (∀ i, ((noise_suppress_destroy E w ng).1.log.drop w.log.length).filter
          (fun e => decide (e.chan = i)) =
        (ng.state i).toList.map (Event.destroy i) ++
          (ng.segment_buffer i).toList.map (fun _ => Event.free i)) ∧
      (∀ i, (((noise_suppress_destroy E w ng).1.log.drop w.log.length).filter
          (fun e => e.isDestroy && decide (e.chan = i))).length =
        if (ng.state i).isSome then 1 else 0) ∧
      (noise_suppress_destroy E w ng).1.eng =
        replay E w.eng ((noise_suppress_destroy E w ng).1.log.drop w.log.length) ∧
      (noise_suppress_destroy E w ng).1.eng =
        (match ng.state 0, ng.state 1 with
          | none, none => w.eng
          | some h0, none => E.state_destroy w.eng h0
          | none, some h1 => E.state_destroy w.eng h1
          | some h0, some h1 => E.state_destroy (E.state_destroy w.eng h0) h1) := by
  have hlog : (noise_suppress_destroy E w ng).1.log =
      w.log ++ ((ng.state 0).toList.map (Event.destroy 0) ++
        (ng.state 1).toList.map (Event.destroy 1) ++
        (ng.segment_buffer 0).toList.map (fun _ => Event.free 0) ++
        (ng.segment_buffer 1).toList.map (fun _ => Event.free 1)) := by
    cases h0 : ng.state 0 <;> cases h1 : ng.state 1 <;> cases b0 : ng.segment_buffer 0 <;>
      cases b1 : ng.segment_buffer 1 <;>
      simp [noise_suppress_destroy, destroy_state, reset_buffer, h0, h1, b0, b1,
        Function.update]
  refine ⟨?_, hlog, ?_, ?_, (Faithful_drop E w _ (destroy_faithful E w ng)).1, ?_⟩
  rotate_left 3
  · cases h0 : ng.state 0 <;> cases h1 : ng.state 1 <;> cases b0 : ng.segment_buffer 0 <;>
      cases b1 : ng.segment_buffer 1 <;>
      simp [noise_suppress_destroy, destroy_state, reset_buffer, h0, h1, b0, b1,
        Function.update]
  · intro i
    fin_cases i <;>
      cases h0 : ng.state 0 <;> cases h1 : ng.state 1 <;> cases b0 : ng.segment_buffer 0 <;>
      cases b1 : ng.segment_buffer 1 <;>
      simp [noise_suppress_destroy, destroy_state, reset_buffer, h0, h1, b0, b1,
        Function.update]
  · intro i
    rw [drop_log w _ _ hlog]
    fin_cases i <;>
      cases h0 : ng.state 0 <;> cases h1 : ng.state 1 <;> cases b0 : ng.segment_buffer 0 <;>
      cases b1 : ng.segment_buffer 1 <;>
      simp [h0, h1, b0, b1, Event.chan, List.filter]
  · intro i
    rw [drop_log w _ _ hlog]
    fin_cases i <;>
      cases h0 : ng.state 0 <;> cases h1 : ng.state 1 <;> cases b0 : ng.segment_buffer 0 <;>
      cases b1 : ng.segment_buffer 1 <;>
      simp [h0, h1, b0, b1, Event.chan, Event.isDestroy, List.filter]

theorem ChanOutcome_events {σ : Type} (E : Engine σ) (ng : noise_suppress_data)
    (audio : obs_audio_data) (ng' : noise_suppress_data) (a' : obs_audio_data) (i : Fin 2)
    (evs : List Event) (h : ChanOutcome E ng audio ng' a' i evs) :
    ∀ e ∈ evs, e.chan = i ∧ e.creates = false := by
  unfold ChanOutcome at h
  cases hs : ng.state i with
  | none =>
    rw [hs] at h
    rw [h.1]
    simp
  | some hd =>
    rw [hs] at h
    obtain ⟨buf, out, _, _, _, _, _, hev, _⟩ := h
    rw [hev]
    simp [Event.chan, Event.creates]

/-- A completed call of `noise_suppress_filter_audio`, seen from slot `i`. -/
theorem filter_audio_slot {σ : Type} (E : Engine σ) (w : World σ)
    (ng : noise_suppress_data) (audio : obs_audio_data)
    (w' : World σ) (ng' : noise_suppress_data) (a' : obs_audio_data) (i : Fin 2)
    (hr : noise_suppress_filter_audio E w ng audio = some (w', ng', a')) :
    ChanOutcome E ng audio ng' a' i
      ((w'.log.drop w.log.length).filter (fun e => decide (e.chan = i))) := by
  obtain ⟨_, _, _, _, ev0, ev1, hlog, c0, c1⟩ := filter_audio_spec E w ng audio w' ng' a' hr
  have h0 : ∀ e ∈ ev0, e.chan = 0 := fun e he => (ChanOutcome_events E _ _ _ _ 0 ev0 c0 e he).1
  have h1 : ∀ e ∈ ev1, e.chan = 1 := fun e he => (ChanOutcome_events E _ _ _ _ 1 ev1 c1 e he).1
  rw [drop_log w _ _ hlog]
  fin_cases i
  · simp only [Fin.zero_eta]
    rw [filter_chan_zero ev0 ev1 h0 h1]
    exact c0
  · simp only [Fin.mk_one]
    rw [filter_chan_one ev0 ev1 h0 h1]
    exact c1

/-- C7: whenever `noise_suppress_filter_audio` completes, the block it returns has
the frame count and the time stamp of the block it received, each plane has kept
its length, and the plane of every slot without engine state is the input plane,
sample for sample.  The call completes whenever every bound slot has a buffer and
neither that buffer nor the slot's plane is shorter than the frame count. -/
theorem filter_audio_frame {σ : Type} (E : Engine σ) (w : World σ)
    (ng : noise_suppress_data) (audio : obs_audio_data) :
    (Ready ng audio → (noise_suppress_filter_audio E w ng audio).isSome = true) ∧
      ∀ w' ng' a', noise_suppress_filter_audio E w ng audio = some (w', ng', a') →
        a'.frames = audio.frames ∧ a'.timestamp = audio.timestamp ∧
          (∀ i, (a'.data i).length = (audio.data i).length) ∧
          (∀ i, ng.state i = none → a'.data i = audio.data i) := by
  refine ⟨(filter_audio_isSome_iff E w ng audio).2, ?_⟩
  intro w' ng' a' hr
  obtain ⟨_, _, hf, ht, _⟩ := filter_audio_spec E w ng audio w' ng' a' hr
  refine ⟨hf, ht, ?_, ?_⟩
  · intro i
    have hc := filter_audio_slot E w ng audio w' ng' a' i hr
    unfold ChanOutcome at hc
    cases hs : ng.state i with
    | none =>
      rw [hs] at hc
      rw [hc.2.2]
    | some hd =>
      rw [hs] at hc
      obtain ⟨buf, out, _, h1, h2, hlen, _, _, _, hd'⟩ := hc
      rw [hd', plane_output_length audio i out (by omega) h2]
  · intro i hs
    have hc := filter_audio_slot E w ng audio w' ng' a' i hr
    unfold ChanOutcome at hc
    rw [hs] at hc
    exact hc.2.2

theorem Buffered_fresh : Buffered noise_suppress_data.fresh := by
  intro i hd hs
  cases hs

theorem Buffered_update {σ : Type} (E : Engine σ) (w : World σ) (ng : noise_suppress_data)
    (s : Int) (rate channels : Nat) (h : Buffered ng) :
    Buffered (noise_suppress_update E w ng s rate channels).2 := by
  intro i hd hs
  obtain ⟨evs, _, hcase⟩ := update_slot E w ng s rate channels i
  by_cases hc : i = 0 ∨ channels > 1
  · rw [if_pos hc] at hcase
    unfold SlotOutcome at hcase
    cases hs0 : ng.state i with
    | some hd0 =>
      rw [hs0] at hcase
      obtain ⟨buf, hb⟩ := h i hd0 hs0
      exact ⟨buf, by rw [hcase.2.2, hb]⟩
    | none =>
      rw [hs0] at hcase
      cases hb0 : ng.segment_buffer i with
      | some b =>
        rw [hb0] at hcase
        exact ⟨b, hcase.2.2⟩
      | none =>
        rw [hb0] at hcase
        exact ⟨_, hcase.2.2⟩
  · rw [if_neg hc] at hcase
    rw [hcase.2.1] at hs
    obtain ⟨buf, hb⟩ := h i hd hs
    exact ⟨buf, by rw [hcase.2.2, hb]⟩

theorem Buffered_filter_audio {σ : Type} (E : Engine σ) (w : World σ)
    (ng : noise_suppress_data) (audio : obs_audio_data)
    (w' : World σ) (ng' : noise_suppress_data) (a' : obs_audio_data)
    (hr : noise_suppress_filter_audio E w ng audio = some (w', ng', a')) :
    Buffered ng' := by
  intro i hd hs
  obtain ⟨hst, _⟩ := filter_audio_spec E w ng audio w' ng' a' hr
  have hc := filter_audio_slot E w ng audio w' ng' a' i hr
  rw [hst] at hs
  unfold ChanOutcome at hc
  rw [hs] at hc
  obtain ⟨buf, out, _, _, _, _, _, _, hb', _⟩ := hc
  exact ⟨out, hb'⟩

theorem Buffered_run_calls {σ : Type} (E : Engine σ) (calls : List Call)
    (st st' : World σ × noise_suppress_data) (h : Buffered st.2)
    (hrun : run_calls E st calls = some st') : Buffered st'.2 := by
  induction calls generalizing st with
  | nil =>
    simp only [run_calls, Option.some.injEq] at hrun
    rw [← hrun]
    exact h
  | cons c cs ih =>
    simp only [run_calls] at hrun
    cases hstep : step E st c with
    | none => simp [hstep] at hrun
    | some st1 =>
      simp only [hstep] at hrun
      refine ih st1 ?_ hrun
      cases c with
      | update s rate channels =>
        simp only [step, Option.some.injEq] at hstep
        rw [← hstep]
        exact Buffered_update E st.1 st.2 s rate channels h
      | filter_audio audio =>
        simp only [step] at hstep
        cases hr : noise_suppress_filter_audio E st.1 st.2 audio with
        | none => simp [hr] at hstep
        | some r =>
          obtain ⟨w', ng', a'⟩ := r
          simp only [hr, Option.some.injEq] at hstep
          rw [← hstep]
          exact Buffered_filter_audio E st.1 st.2 audio w' ng' a' hr

/-- C8: in every state reached by `noise_suppress_create` followed by any
sequence of host calls, a block whose two planes hold `frames` samples each, with
`frames` not above the length of the scratch buffer of any bound slot, is
processed without any access outside a buffer or a plane: the call completes. -/
theorem filter_audio_in_bounds {σ : Type} (E : Engine σ) (w0 : World σ) (s0 : Int)
    (rate0 channels0 : Nat) (calls : List Call) (st : World σ × noise_suppress_data)
    (audio : obs_audio_data)
    (hreach : run_calls E (noise_suppress_create E w0 s0 rate0 channels0) calls = some st)
    (hplanes : ∀ i, (audio.data i).length = audio.frames)
    (hfit : ∀ i hd buf, st.2.state i = some hd → st.2.segment_buffer i = some buf →
      audio.frames ≤ buf.length) :
    (noise_suppress_filter_audio E st.1 st.2 audio).isSome = true := by
  have hb : Buffered st.2 :=
    Buffered_run_calls E calls _ st
      (Buffered_update E w0 noise_suppress_data.fresh s0 rate0 channels0 Buffered_fresh) hreach
  refine (filter_audio_isSome_iff E st.1 st.2 audio).2 ?_
  intro i hd hs
  obtain ⟨buf, hbuf⟩ := hb i hd hs
  exact ⟨buf, hbuf, hfit i hd buf hs hbuf, by rw [hplanes i]⟩

theorem block2_ready_one :
    Ready (noise_suppress_create echo_engine world0 (-30) 400 1).2 block2 := by
  intro i hd hs
  fin_cases i
  · exact ⟨[0, 0, 0, 0], rfl, by decide, by decide⟩
  · have h : (noise_suppress_create echo_engine world0 (-30) 400 1).2.state 1 = none := rfl
    simp only [Fin.mk_one] at hs
    rw [h] at hs
    cases hs

/-- C7, a concrete instance: an instance with slot 0 bound only, a block of two
frames. -/
theorem filter_audio_frame_witness :
    ∃ r, noise_suppress_filter_audio echo_engine
        (noise_suppress_create echo_engine world0 (-30) 400 1).1
        (noise_suppress_create echo_engine world0 (-30) 400 1).2 block2 = some r ∧
      r.2.2.frames = 2 ∧ (r.2.2.data 0).length = 2 ∧ r.2.2.data 1 = [1 / 2, -1 / 4] := by
  have hthm := filter_audio_frame echo_engine
    (noise_suppress_create echo_engine world0 (-30) 400 1).1
    (noise_suppress_create echo_engine world0 (-30) 400 1).2 block2
  obtain ⟨⟨w', ng', a'⟩, hr⟩ := Option.isSome_iff_exists.1 (hthm.1 block2_ready_one)
  obtain ⟨hf, _, hl, hp⟩ := hthm.2 w' ng' a' hr
  exact ⟨_, hr, hf, hl 0, hp 1 rfl⟩

/-- C8, a concrete instance: created at 400 Hz with one channel, updated at
200 Hz with two channels, then a block of two frames. -/
theorem filter_audio_in_bounds_witness :
    (noise_suppress_filter_audio echo_engine
        (noise_suppress_update echo_engine
          (noise_suppress_create echo_engine world0 (-30) 400 1).1
          (noise_suppress_create echo_engine world0 (-30) 400 1).2 (-60) 200 2).1
        (noise_suppress_update echo_engine
          (noise_suppress_create echo_engine world0 (-30) 400 1).1
          (noise_suppress_create echo_engine world0 (-30) 400 1).2 (-60) 200 2).2
        block2).isSome = true :=
  filter_audio_in_bounds echo_engine world0 (-30) 400 1 [Call.update (-60) 200 2]
    (noise_suppress_update echo_engine
      (noise_suppress_create echo_engine world0 (-30) 400 1).1
      (noise_suppress_create echo_engine world0 (-30) 400 1).2 (-60) 200 2)
    block2 rfl (fun i => by fin_cases i <;> rfl)
    (fun i hd buf hs hb => by
      fin_cases i
      · have h : (noise_suppress_update echo_engine
            (noise_suppress_create echo_engine world0 (-30) 400 1).1
            (noise_suppress_create echo_engine world0 (-30) 400 1).2 (-60) 200
              2).2.segment_buffer 0 = some [0, 0, 0, 0] := rfl
        simp only [Fin.zero_eta] at hb
        rw [h] at hb
        cases hb
        decide
      · have h : (noise_suppress_update echo_engine
            (noise_suppress_create echo_engine world0 (-30) 400 1).1
            (noise_suppress_create echo_engine world0 (-30) 400 1).2 (-60) 200
              2).2.segment_buffer 1 = some [0, 0] := rfl
        simp only [Fin.mk_one] at hb
        rw [h] at hb
        cases hb
        decide)

theorem int_cast_of_range (s : Int) (h1 : -2147483648 ≤ s) (h2 : s ≤ 2147483647) :
    int_cast s = s := by
  unfold int_cast
  omega

/-- Processing blocks changes neither the handles nor the suppression level. -/
theorem run_blocks_keeps {σ : Type} (E : Engine σ) (blocks : List obs_audio_data)
    (st st' : World σ × noise_suppress_data)
    (hrun : run_calls E st (blocks.map Call.filter_audio) = some st') :
    st'.2.state = st.2.state ∧ st'.2.suppress_level = st.2.suppress_level := by
  induction blocks generalizing st with
  | nil =>
    simp only [List.map_nil, run_calls, Option.some.injEq] at hrun
    rw [← hrun]
    exact ⟨rfl, rfl⟩
  | cons a as ih =>
    simp only [List.map_cons, run_calls, step] at hrun
    cases hr : noise_suppress_filter_audio E st.1 st.2 a with
    | none => simp [hr] at hrun
    | some r =>
      obtain ⟨w', ng', a'⟩ := r
      simp only [hr] at hrun
      obtain ⟨hs, hl, _⟩ := filter_audio_spec E st.1 st.2 a w' ng' a' hr
      obtain ⟨hs', hl'⟩ := ih (w', ng') hrun
      exact ⟨hs'.trans hs, hl'.trans hl⟩

/-- C6: on every block processed after a `noise_suppress_update` that read the
level `s` from the settings (any number of blocks having been processed in
between), the calls logged for a slot with an engine state are exactly one `ctl`
carrying the level `(int) s` followed by exactly one `run`, on that slot's
handle, and no call at all is logged for a slot without engine state.  The calls
logged are the calls made: the engine state after the block is the one reached
by making the logged calls in the order logged (for each bound slot the `ctl`,
then the `run` in the state the `ctl` left), and each buffer logged as left by a
`run` is the one the engine returned for it.  The level is `s` itself whenever
`s` fits in an `int`.  The call completes whenever every bound slot has a buffer
and neither that buffer nor the slot's plane is shorter than the frame count. -/
theorem filter_audio_engine_calls {σ : Type} (E : Engine σ) (w : World σ)
    (ng : noise_suppress_data) (s : Int) (rate channels : Nat)
    (blocks : List obs_audio_data) (st : World σ × noise_suppress_data)
    (audio : obs_audio_data)
    (hblocks : run_calls E (noise_suppress_update E w ng s rate channels)
      (blocks.map Call.filter_audio) = some st) :
    (-2147483648 ≤ s → s ≤ 2147483647 → int_cast s = s) ∧
      (Ready st.2 audio → (noise_suppress_filter_audio E st.1 st.2 audio).isSome = true) ∧
      ∀ w' ng' a', noise_suppress_filter_audio E st.1 st.2 audio = some (w', ng', a') →
        (∀ i, st.2.state i = none →
          (w'.log.drop st.1.log.length).filter (fun e => decide (e.chan = i)) = []) ∧
        (∀ i hd, st.2.state i = some hd →
          ∃ inp out,
            (w'.log.drop st.1.log.length).filter (fun e => decide (e.chan = i)) =
              [Event.ctl i hd (int_cast s), Event.run i hd inp out]) ∧
        w'.eng = replay E st.1.eng (w'.log.drop st.1.log.length) ∧
        Answered E st.1.eng (w'.log.drop st.1.log.length) ∧
        (match st.2.state 0, st.2.state 1 with
          | none, none => w'.eng = st.1.eng
          | some h0, none =>
            ∃ inp0, w'.eng =
              (E.run (E.ctl_noise_suppress st.1.eng h0 (int_cast s)) h0 inp0).2
          | none, some h1 =>
            ∃ inp1, w'.eng =
              (E.run (E.ctl_noise_suppress st.1.eng h1 (int_cast s)) h1 inp1).2
          | some h0, some h1 =>
            ∃ inp0 inp1, w'.eng =
              (E.run (E.ctl_noise_suppress
                (E.run (E.ctl_noise_suppress st.1.eng h0 (int_cast s)) h0 inp0).2
                h1 (int_cast s)) h1 inp1).2) := by
  refine ⟨int_cast_of_range s, (filter_audio_isSome_iff E st.1 st.2 audio).2, ?_⟩
  intro w' ng' a' hr
  have hlevel : st.2.suppress_level = int_cast s := by
    rw [(run_blocks_keeps E blocks _ st hblocks).2]
    exact (update_spec E w ng s rate channels).1
  obtain ⟨hrep, hans⟩ :=
    Faithful_drop E st.1 w' (filter_audio_faithful E st.1 st.2 audio w' ng' a' hr)
  refine ⟨?_, ?_, hrep, hans, ?_⟩
  rotate_left 2
  · obtain ⟨_, _, _, _, ev0, ev1, hlog, c0, c1⟩ :=
      filter_audio_spec E st.1 st.2 audio w' ng' a' hr
    rw [drop_log st.1 w' _ hlog] at hrep
    unfold ChanOutcome at c0 c1
    cases hs0 : st.2.state 0 with
    | none =>
      rw [hs0] at c0
      cases hs1 : st.2.state 1 with
      | none =>
        rw [hs1] at c1
        rw [c0.1, c1.1] at hrep
        exact hrep
      | some h1 =>
        rw [hs1] at c1
        obtain ⟨buf, out, _, _, _, _, _, hev, _⟩ := c1
        rw [c0.1, hev, hlevel] at hrep
        exact ⟨_, hrep⟩
    | some h0 =>
      rw [hs0] at c0
      obtain ⟨buf0, out0, _, _, _, _, _, hev0, _⟩ := c0
      cases hs1 : st.2.state 1 with
      | none =>
        rw [hs1] at c1
        rw [hev0, c1.1, hlevel] at hrep
        exact ⟨_, hrep⟩
      | some h1 =>
        rw [hs1] at c1
        obtain ⟨buf1, out1, _, _, _, _, _, hev1, _⟩ := c1
        rw [hev0, hev1, hlevel] at hrep
        exact ⟨_, _, hrep⟩
  · intro i hs
    have hc := filter_audio_slot E st.1 st.2 audio w' ng' a' i hr
    unfold ChanOutcome at hc
    rw [hs] at hc
    exact hc.1
  · intro i hd hs
    have hc := filter_audio_slot E st.1 st.2 audio w' ng' a' i hr
    unfold ChanOutcome at hc
    rw [hs] at hc
    obtain ⟨buf, out, _, _, _, _, _, hev, _⟩ := hc
    exact ⟨_, out, by rw [hev, hlevel]⟩

/-- C6, a concrete instance: a level of -60 is set, one block goes through, and
the next block is processed with slot 0 bound only. -/
theorem filter_audio_engine_calls_witness :
    ∃ st r,
      run_calls echo_engine
          (noise_suppress_update echo_engine
            (noise_suppress_create echo_engine world0 (-30) 400 1).1
            (noise_suppress_create echo_engine world0 (-30) 400 1).2 (-60) 400 1)
          [Call.filter_audio block2] = some st ∧
        noise_suppress_filter_audio echo_engine st.1 st.2 block2 = some r ∧
        int_cast (-60) = -60 ∧
        (∃ inp out, (r.1.log.drop st.1.log.length).filter (fun e => decide (e.chan = 0)) =
          [Event.ctl 0 0 (int_cast (-60)), Event.run 0 0 inp out]) ∧
        (r.1.log.drop st.1.log.length).filter (fun e => decide (e.chan = 1)) = [] := by
  have hready : Ready
      (noise_suppress_update echo_engine
        (noise_suppress_create echo_engine world0 (-30) 400 1).1
        (noise_suppress_create echo_engine world0 (-30) 400 1).2 (-60) 400 1).2 block2 :=
    block2_ready_one
  obtain ⟨⟨w1, ng1, a1⟩, h1⟩ :=
    Option.isSome_iff_exists.1 ((filter_audio_isSome_iff echo_engine
      (noise_suppress_update echo_engine
        (noise_suppress_create echo_engine world0 (-30) 400 1).1
        (noise_suppress_create echo_engine world0 (-30) 400 1).2 (-60) 400 1).1
      _ block2).2 hready)
  have hrun : run_calls echo_engine
      (noise_suppress_update echo_engine
        (noise_suppress_create echo_engine world0 (-30) 400 1).1
        (noise_suppress_create echo_engine world0 (-30) 400 1).2 (-60) 400 1)
      ([block2].map Call.filter_audio) = some (w1, ng1) := by
    simp only [List.map_cons, List.map_nil, run_calls, step, h1]
  have hthm := filter_audio_engine_calls echo_engine _ _ (-60) 400 1 [block2] (w1, ng1) block2
    hrun
  obtain ⟨hs1, hl1, hf1, ht1, ev0, ev1, hlog1, c0, c1⟩ :=
    filter_audio_spec echo_engine _ _ block2 w1 ng1 a1 h1
  have hst0 : ng1.state 0 = some 0 := by rw [hs1]; rfl
  have hst1 : ng1.state 1 = none := by rw [hs1]; rfl
  have hready1 : Ready ng1 block2 := by
    intro i hd hs
    have hc := filter_audio_slot echo_engine _ _ block2 w1 ng1 a1 i h1
    unfold ChanOutcome at hc
    rw [hs1] at hs
    rw [hs] at hc
    obtain ⟨buf, out, hb, hle, hp, hlen, _, _, hb', _⟩ := hc
    exact ⟨out, hb', by rw [hlen]; exact hle, hp⟩
  obtain ⟨⟨w2, ng2, a2⟩, h2⟩ := Option.isSome_iff_exists.1 (hthm.2.1 hready1)
  obtain ⟨hnone, hsome, _, _, _⟩ := hthm.2.2 w2 ng2 a2 h2
  exact ⟨(w1, ng1), _, hrun, h2, hthm.1 (by decide) (by decide), hsome 0 0 hst0,
    hnone 1 hst1⟩

/-- C1 (as amended): when every bound slot has a buffer at least `frames` long and
a plane of at least `frames` samples, and slot `i` is bound with buffer `buf`, and
for every sample `x` of plane `i` the truncation of the binary32 product
`x * 32767` is representable in 16 bits, then `noise_suppress_filter_audio`
completes; the engine is run for slot `i` on the buffer `inp` whose entries below
`frames` are the truncations toward zero of the binary32 products `x * 32767` and
whose entries from `frames` on are those `buf` held; with `out` the buffer that
run of the engine leaves, sample `j < frames` of the returned plane `i` is
`out[j] / 32768`; when `frames` is the length of the buffer, every entry of
`inp` comes from the block; and the engine has received exactly the calls
logged, in the order logged. -/
theorem filter_audio_samples {σ : Type} (E : Engine σ) (w : World σ)
    (ng : noise_suppress_data) (audio : obs_audio_data) (i : Fin 2) (hd : Handle)
    (buf : List Int) (hs : ng.state i = some hd) (hb : ng.segment_buffer i = some buf)
    (hready : Ready ng audio)
    (hrange : ∀ x ∈ (audio.data i).take audio.frames,
      -32768 ≤ trunc (fl32 (x * 32767)) ∧ trunc (fl32 (x * 32767)) ≤ 32767) :
    ∃ w' ng' a' e inp out,
      noise_suppress_filter_audio E w ng audio = some (w', ng', a') ∧
        inp = ((audio.data i).take audio.frames).map (fun x => trunc (fl32 (x * 32767))) ++
          buf.drop audio.frames ∧
        out = (E.run e hd inp).1 ∧
        Event.run i hd inp out ∈ w'.log.drop w.log.length ∧
        out.length = buf.length ∧ audio.frames ≤ out.length ∧
        (∀ j, j < audio.frames →
          (a'.data i)[j]? = out[j]?.map (fun (v : Int) => (v : ℚ) / 32768)) ∧
        (audio.frames = buf.length →
          inp = ((audio.data i).take audio.frames).map
            (fun x => trunc (fl32 (x * 32767)))) ∧
        w'.eng = replay E w.eng (w'.log.drop w.log.length) ∧
        Answered E w.eng (w'.log.drop w.log.length) := by
  obtain ⟨⟨w', ng', a'⟩, hr⟩ :=
    Option.isSome_iff_exists.1 ((filter_audio_isSome_iff E w ng audio).2 hready)
  have hc := filter_audio_slot E w ng audio w' ng' a' i hr
  obtain ⟨hrep, hans⟩ := Faithful_drop E w w' (filter_audio_faithful E w ng audio w' ng' a' hr)
  unfold ChanOutcome at hc
  rw [hs] at hc
  obtain ⟨buf', out, hb', h1, h2, hlen, ⟨e, he⟩, hev, _, hplane⟩ := hc
  rw [hb] at hb'
  cases hb'
  have hinp : engine_input audio i buf =
      ((audio.data i).take audio.frames).map (fun x => trunc (fl32 (x * 32767))) ++
        buf.drop audio.frames := by
    unfold engine_input
    rw [List.map_congr_left (fun x hx => sample_to_16_of_fit x (hrange x hx).1 (hrange x hx).2)]
  rw [hinp] at he hev
  refine ⟨w', ng', a', e, _, out, hr, rfl, he, ?_, hlen, by omega, ?_, ?_, hrep, hans⟩
  · have hmem : Event.run i hd
        (((audio.data i).take audio.frames).map (fun x => trunc (fl32 (x * 32767))) ++
          buf.drop audio.frames) out ∈
        (w'.log.drop w.log.length).filter (fun e => decide (e.chan = i)) := by
      rw [hev]
      simp
    exact (List.mem_filter.1 hmem).1
  · intro j hj
    rw [hplane]
    unfold plane_output
    rw [List.getElem?_append_left (by
        rw [List.length_map, List.length_take]
        omega),
      List.getElem?_map, List.getElem?_take_of_lt hj]
    rfl
  · intro hfull
    rw [List.drop_eq_nil_of_le (by omega), List.append_nil]

/-- C1, a concrete instance: samples `1/2` and `-1/4` become 16383 and -8191, the
two last entries of the buffer of four are kept, and the plane is read back from
the buffer the engine leaves. -/
theorem filter_audio_samples_witness :
    ∃ r inp out,
      noise_suppress_filter_audio echo_engine
          (noise_suppress_create echo_engine world0 (-30) 400 1).1
          (noise_suppress_create echo_engine world0 (-30) 400 1).2 block2 = some r ∧
        inp = [16383, -8191, 0, 0] ∧
        Event.run 0 0 inp out ∈
          r.1.log.drop (noise_suppress_create echo_engine world0 (-30) 400 1).1.log.length ∧
        (r.2.2.data 0)[0]? = out[0]?.map (fun (v : Int) => (v : ℚ) / 32768) := by
  have h1 : trunc (fl32 (1 / 2 * 32767)) = 16383 := by
    rw [fl32_half]
    norm_num [trunc]
    decide
  have h2 : trunc (fl32 (-1 / 4 * 32767)) = -8191 := by
    rw [fl32_quarter]
    norm_num [trunc]
    decide
  have hrange : ∀ x ∈ (block2.data 0).take block2.frames,
      -32768 ≤ trunc (fl32 (x * 32767)) ∧ trunc (fl32 (x * 32767)) ≤ 32767 := by
    intro x hx
    simp only [block2, List.take_succ_cons, List.take_zero, List.mem_cons,
      List.mem_singleton, List.not_mem_nil, or_false] at hx
    rcases hx with rfl | rfl
    · rw [h1]
      decide
    · rw [h2]
      decide
  obtain ⟨w', ng', a', e, inp, out, hr, hinp, _, hmem, _, _, hout, _⟩ :=
    filter_audio_samples echo_engine
      (noise_suppress_create echo_engine world0 (-30) 400 1).1
      (noise_suppress_create echo_engine world0 (-30) 400 1).2 block2 0 0 [0, 0, 0, 0]
      rfl rfl block2_ready_one hrange
  refine ⟨_, inp, out, hr, ?_, hmem, hout 0 (by decide)⟩
  rw [hinp]
  show [trunc (fl32 (1 / 2 * 32767)), trunc (fl32 (-1 / 4 * 32767))] ++ [0, 0] = _
  rw [h1, h2]
  rfl

theorem sample_to_16_two : sample_to_16 2 = -2 := by
  unfold sample_to_16 c_32_to_16
  rw [fl32_two]
  norm_num [to_int16, trunc, wrap16]

/-- C1 as stated fails: for the sample 2 the binary32 product `2 * 32767` is 65534
and so is its truncation, which is not a 16 bit value; the buffer handed to the
engine holds -2 and the sample returned is `-2 / 32768`. -/
theorem filter_audio_samples_counterexample :
    fl32 (2 * 32767) = 65534 ∧ trunc (fl32 (2 * 32767)) = 65534 ∧
      ∃ r,
        noise_suppress_filter_audio echo_engine
            (noise_suppress_create echo_engine world0 (-30) 100 1).1
            (noise_suppress_create echo_engine world0 (-30) 100 1).2 loud_block = some r ∧
          r.1.log.drop (noise_suppress_create echo_engine world0 (-30) 100 1).1.log.length =
            [Event.ctl 0 0 (-30), Event.run 0 0 [-2] [-2]] ∧
          r.2.2.data 0 = [(-2 : ℚ) / 32768] := by
  refine ⟨fl32_two, ?_, ?_⟩
  · rw [fl32_two]
    norm_num [trunc]
  · have hready : Ready (noise_suppress_create echo_engine world0 (-30) 100 1).2 loud_block := by
      intro i hd hs
      fin_cases i
      · exact ⟨[0], rfl, by decide, by decide⟩
      · have h : (noise_suppress_create echo_engine world0 (-30) 100 1).2.state 1 = none := rfl
        simp only [Fin.mk_one] at hs
        rw [h] at hs
        cases hs
    obtain ⟨⟨w', ng', a'⟩, hr⟩ :=
      Option.isSome_iff_exists.1 ((filter_audio_isSome_iff echo_engine
        (noise_suppress_create echo_engine world0 (-30) 100 1).1 _ loud_block).2 hready)
    obtain ⟨_, _, _, _, ev0, ev1, hlog, c0, c1⟩ :=
      filter_audio_spec echo_engine _ _ loud_block w' ng' a' hr
    have hin : engine_input loud_block 0 [0] = [-2] := by
      simp [engine_input, loud_block, sample_to_16_two]
    have hs0 : (noise_suppress_create echo_engine world0 (-30) 100 1).2.state 0 = some 0 := rfl
    have hs1 : (noise_suppress_create echo_engine world0 (-30) 100 1).2.state 1 = none := rfl
    have hb0 : (noise_suppress_create echo_engine world0 (-30) 100 1).2.segment_buffer 0 =
        some [0] := rfl
    have hl : (noise_suppress_create echo_engine world0 (-30) 100 1).2.suppress_level = -30 :=
      rfl
    unfold ChanOutcome at c0 c1
    rw [hs0] at c0
    rw [hs1] at c1
    obtain ⟨buf, out, hb, _, _, _, ⟨e, he⟩, hev, _, hplane⟩ := c0
    rw [hb0] at hb
    cases hb
    rw [hin] at he hev
    have hout : out = [-2] := he
    subst hout
    refine ⟨_, hr, ?_, ?_⟩
    · rw [drop_log _ _ _ hlog, hev, c1.1, hl]
      rfl
    · show a'.data 0 = _
      rw [hplane]
      simp [plane_output, loud_block, sample_to_32, c_16_to_32]

theorem creates_filter_append (old new : List Event) (i : Fin 2) :
    (old ++ new).filter (fun e => e.creates && decide (e.chan = i)) =
      old.filter (fun e => e.creates && decide (e.chan = i)) ++
        (new.filter (fun e => decide (e.chan = i))).filter (fun e => e.creates) := by
  rw [List.filter_append, List.filter_filter]

theorem Consistent_update {σ : Type} (E : Engine σ) (hinit : InitSucceeds E)
    (st : World σ × noise_suppress_data) (s : Int) (rate channels : Nat) (i : Fin 2)
    (h : Consistent st i) : Consistent (noise_suppress_update E st.1 st.2 s rate channels) i := by
  obtain ⟨_, ev0, ev1, hlog, _⟩ := update_spec E st.1 st.2 s rate channels
  obtain ⟨evs, hev, hcase⟩ := update_slot E st.1 st.2 s rate channels i
  rw [drop_log st.1 _ _ hlog] at hev
  have hfil := creates_filter_append st.1.log (ev0 ++ ev1) i
  rw [← hlog, hev] at hfil
  unfold Consistent
  rw [hfil]
  by_cases hc : i = 0 ∨ channels > 1
  · rw [if_pos hc] at hcase
    rcases h with ⟨hs, hb, hl⟩ | ⟨hd, seg, r, buf, hs, hb, hlen, hl⟩
    · right
      have hsome := SlotOutcome_isSome E st.2 _ i _ _ evs hinit hcase
      obtain ⟨hd, hs'⟩ := Option.isSome_iff_exists.1 hsome
      unfold SlotOutcome at hcase
      rw [hs, hb] at hcase
      obtain ⟨_, hevs, hb'⟩ := hcase
      refine ⟨hd, rate / 100, rate, _, hs', hb', by rw [List.length_map, List.length_range], ?_⟩
      rw [hl, hevs, hs']
      simp [Event.creates]
    · right
      obtain ⟨a, b, c⟩ := SlotOutcome_bound E st.2 _ i _ _ evs hd hs hcase
      refine ⟨hd, seg, r, buf, b, by rw [c, hb], hlen, ?_⟩
      rw [hl, a]
      simp
  · rw [if_neg hc] at hcase
    obtain ⟨a, b, c⟩ := hcase
    rw [a, b, c]
    simpa [Consistent] using h

theorem Consistent_filter_audio {σ : Type} (E : Engine σ)
    (st : World σ × noise_suppress_data) (audio : obs_audio_data)
    (w' : World σ) (ng' : noise_suppress_data) (a' : obs_audio_data) (i : Fin 2)
    (hr : noise_suppress_filter_audio E st.1 st.2 audio = some (w', ng', a'))
    (h : Consistent st i) : Consistent (w', ng') i := by
  obtain ⟨hst, _, _, _, ev0, ev1, hlog, _⟩ := filter_audio_spec E st.1 st.2 audio w' ng' a' hr
  have hc := filter_audio_slot E st.1 st.2 audio w' ng' a' i hr
  rw [drop_log st.1 _ _ hlog] at hc
  have hfil := creates_filter_append st.1.log (ev0 ++ ev1) i
  rw [← hlog] at hfil
  have hnone : ((ev0 ++ ev1).filter (fun e => decide (e.chan = i))).filter
      (fun e => e.creates) = [] :=
    List.filter_eq_nil_iff.2 (fun e he => by
      simp [(ChanOutcome_events E _ _ _ _ i _ hc e he).2])
  rw [hnone, List.append_nil] at hfil
  unfold Consistent
  show (ng'.state i = none ∧ ng'.segment_buffer i = none ∧ _) ∨ _
  rw [hfil, hst]
  unfold ChanOutcome at hc
  rcases h with ⟨hs, hb, hl⟩ | ⟨hd, seg, r, buf, hs, hb, hlen, hl⟩
  · left
    rw [hs] at hc
    exact ⟨hs, by rw [hc.2.1, hb], hl⟩
  · right
    rw [hs] at hc
    obtain ⟨buf', out, hb', _, _, hlen', _, _, hout, _⟩ := hc
    rw [hb] at hb'
    cases hb'
    exact ⟨hd, seg, r, out, hs, hout, by rw [hlen', hlen], hl⟩

theorem Consistent_run_calls {σ : Type} (E : Engine σ) (hinit : InitSucceeds E)
    (calls : List Call) (st st' : World σ × noise_suppress_data) (i : Fin 2)
    (h : Consistent st i) (hrun : run_calls E st calls = some st') : Consistent st' i := by
  induction calls generalizing st with
  | nil =>
    simp only [run_calls, Option.some.injEq] at hrun
    rw [← hrun]
    exact h
  | cons c cs ih =>
    simp only [run_calls] at hrun
    cases hstep : step E st c with
    | none => simp [hstep] at hrun
    | some st1 =>
      simp only [hstep] at hrun
      refine ih st1 ?_ hrun
      cases c with
      | update s rate channels =>
        simp only [step, Option.some.injEq] at hstep
        rw [← hstep]
        exact Consistent_update E hinit st s rate channels i h
      | filter_audio audio =>
        simp only [step] at hstep
        cases hr : noise_suppress_filter_audio E st.1 st.2 audio with
        | none => simp [hr] at hstep
        | some r =>
          obtain ⟨w', ng', a'⟩ := r
          simp only [hr, Option.some.injEq] at hstep
          rw [← hstep]
          exact Consistent_filter_audio E st audio w' ng' a' i hr h

theorem Faithful_run_calls {σ : Type} (E : Engine σ) (calls : List Call)
    (st st' : World σ × noise_suppress_data) (hrun : run_calls E st calls = some st') :
    Faithful E st.1 st'.1 := by
  induction calls generalizing st with
  | nil =>
    simp only [run_calls, Option.some.injEq] at hrun
    rw [← hrun]
    exact Faithful_refl E st.1
  | cons c cs ih =>
    simp only [run_calls] at hrun
    cases hstep : step E st c with
    | none => simp [hstep] at hrun
    | some st1 =>
      simp only [hstep] at hrun
      refine Faithful_trans E _ _ _ ?_ (ih st1 hrun)
      cases c with
      | update s rate channels =>
        simp only [step, Option.some.injEq] at hstep
        rw [← hstep]
        exact update_faithful E st.1 st.2 s rate channels
      | filter_audio audio =>
        simp only [step] at hstep
        cases hr : noise_suppress_filter_audio E st.1 st.2 audio with
        | none => simp [hr] at hstep
        | some r =>
          obtain ⟨w', ng', a'⟩ := r
          simp only [hr, Option.some.injEq] at hstep
          rw [← hstep]
          exact filter_audio_faithful E st.1 st.2 audio w' ng' a' hr

/-- C10 (as amended): with an engine whose `init` returns non-null handles, in
every state reached from `noise_suppress_create` (on an empty log) by any
sequence of update and processing calls, each slot holds an engine state exactly
when it holds a scratch buffer, the log has at most one `init` and at most one
`alloc` for the slot, and a bound slot's buffer has the length given as segment
size to the `init` that returned the handle held.  The log is the record of the
calls made: the engine state is the one reached by making its calls in order and
every result in it is the one the engine returned. -/
theorem binding_consistency {σ : Type} (E : Engine σ) (hinit : InitSucceeds E) (eng0 : σ)
    (s : Int) (rate channels : Nat) (calls : List Call)
    (st : World σ × noise_suppress_data)
    (hrun : run_calls E (noise_suppress_create E { eng := eng0, log := [] } s rate channels)
      calls = some st) (i : Fin 2) :
    ((st.2.state i).isSome = true ↔ (st.2.segment_buffer i).isSome = true) ∧
      (st.1.log.filter (fun e => e.isInit && decide (e.chan = i))).length ≤ 1 ∧
      (st.1.log.filter (fun e => e.isAlloc && decide (e.chan = i))).length ≤ 1 ∧
      (∀ hd, st.2.state i = some hd →
        ∃ seg r buf, st.2.segment_buffer i = some buf ∧ buf.length = seg ∧
          st.1.log.filter (fun e => e.isInit && decide (e.chan = i)) =
            [Event.init i seg r (some hd)]) ∧
      Consistent st i ∧
      st.1.eng = replay E eng0 st.1.log ∧ Answered E eng0 st.1.log := by
  have hfaith : st.1.eng = replay E eng0 st.1.log ∧ Answered E eng0 st.1.log :=
    Faithful_drop E { eng := eng0, log := [] } st.1
      (Faithful_trans E _ _ _
        (update_faithful E { eng := eng0, log := [] } noise_suppress_data.fresh s rate
          channels)
        (Faithful_run_calls E calls _ st hrun))
  have h0 : Consistent (({ eng := eng0, log := [] } : World σ), noise_suppress_data.fresh) i :=
    Or.inl ⟨rfl, rfl, rfl⟩
  have hc : Consistent st i :=
    Consistent_run_calls E hinit calls _ st i
      (Consistent_update E hinit _ s rate channels i h0) hrun
  have hi : ∀ l : List Event,
      l.filter (fun e => e.isInit && decide (e.chan = i)) =
        (l.filter (fun e => e.creates && decide (e.chan = i))).filter (fun e => e.isInit) := by
    intro l
    rw [List.filter_filter]
    congr 1
    funext e
    cases e <;> simp [Event.isInit, Event.creates]
  have ha : ∀ l : List Event,
      l.filter (fun e => e.isAlloc && decide (e.chan = i)) =
        (l.filter (fun e => e.creates && decide (e.chan = i))).filter (fun e => e.isAlloc) := by
    intro l
    rw [List.filter_filter]
    congr 1
    funext e
    cases e <;> simp [Event.isAlloc, Event.creates]
  refine ⟨?_, ?_, ?_, ?_, hc, hfaith⟩
  · rcases hc with ⟨hs, hb, _⟩ | ⟨hd, seg, r, buf, hs, hb, _, _⟩
    · rw [hs, hb]
      exact Iff.rfl
    · rw [hs, hb]
      exact Iff.rfl
  · rw [hi]
    rcases hc with ⟨_, _, hl⟩ | ⟨hd, seg, r, buf, _, _, _, hl⟩ <;> rw [hl] <;>
      simp [Event.isInit]
  · rw [ha]
    rcases hc with ⟨_, _, hl⟩ | ⟨hd, seg, r, buf, _, _, _, hl⟩ <;> rw [hl] <;>
      simp [Event.isAlloc]
  · intro hd hs
    rcases hc with ⟨hs', _, _⟩ | ⟨hd', seg, r, buf, hs', hb, hlen, hl⟩
    · rw [hs'] at hs
      cases hs
    · rw [hs'] at hs
      cases hs
      refine ⟨seg, r, buf, hb, hlen, ?_⟩
      rw [hi, hl]
      simp [Event.isInit]

theorem block2_ready_two :
    Ready (noise_suppress_update echo_engine
      (noise_suppress_create echo_engine { eng := 0, log := [] } (-30) 400 1).1
      (noise_suppress_create echo_engine { eng := 0, log := [] } (-30) 400 1).2 (-60) 200 2).2
      block2 := by
  intro i hd hs
  fin_cases i
  · exact ⟨[0, 0, 0, 0], rfl, by decide, by decide⟩
  · exact ⟨[0, 0], rfl, by decide, by decide⟩

/-- C10, a concrete instance: created with one channel at 400 Hz, updated with
two channels at 200 Hz, one block processed; slot 1. -/
theorem binding_consistency_witness :
    InitSucceeds echo_engine ∧
      ∃ st,
        run_calls echo_engine
            (noise_suppress_create echo_engine { eng := 0, log := [] } (-30) 400 1)
            [Call.update (-60) 200 2, Call.filter_audio block2] = some st ∧
          ((st.2.state 1).isSome = true ↔ (st.2.segment_buffer 1).isSome = true) ∧
          (st.1.log.filter (fun e => e.isInit && decide (e.chan = 1))).length ≤ 1 ∧
          Consistent st 1 := by
  refine ⟨echo_init_succeeds, ?_⟩
  obtain ⟨⟨w1, ng1, a1⟩, h1⟩ :=
    Option.isSome_iff_exists.1 ((filter_audio_isSome_iff echo_engine
      (noise_suppress_update echo_engine
        (noise_suppress_create echo_engine { eng := 0, log := [] } (-30) 400 1).1
        (noise_suppress_create echo_engine { eng := 0, log := [] } (-30) 400 1).2 (-60) 200
          2).1
      _ block2).2 block2_ready_two)
  have hrun : run_calls echo_engine
      (noise_suppress_create echo_engine { eng := 0, log := [] } (-30) 400 1)
      [Call.update (-60) 200 2, Call.filter_audio block2] = some (w1, ng1) := by
    simp only [run_calls, step, h1]
  obtain ⟨a, b, _, _, c, _⟩ :=
    binding_consistency echo_engine echo_init_succeeds 0 (-30) 400 1
      [Call.update (-60) 200 2, Call.filter_audio block2] (w1, ng1) hrun 1
  exact ⟨_, hrun, a, b, c⟩

/-- C10 as stated fails: with an engine whose first `init` returns null, the
instance created at 48000 Hz has a scratch buffer in slot 0 and no engine state;
after an update at 44100 Hz the log has two `init` calls for slot 0, the handle
held comes from the one with segment size 441, and the buffer has 480 entries. -/
theorem binding_consistency_counterexample :
    (noise_suppress_create flaky_engine { eng := 0, log := [] } (-30) 48000 1).2.state 0 = none ∧
      ((noise_suppress_create flaky_engine { eng := 0, log := [] } (-30) 48000
        1).2.segment_buffer 0).isSome = true ∧
      run_calls flaky_engine
          (noise_suppress_create flaky_engine { eng := 0, log := [] } (-30) 48000 1)
          [Call.update (-30) 44100 1] =
        some (noise_suppress_update flaky_engine
          (noise_suppress_create flaky_engine { eng := 0, log := [] } (-30) 48000 1).1
          (noise_suppress_create flaky_engine { eng := 0, log := [] } (-30) 48000 1).2
          (-30) 44100 1) ∧
      (noise_suppress_update flaky_engine
          (noise_suppress_create flaky_engine { eng := 0, log := [] } (-30) 48000 1).1
          (noise_suppress_create flaky_engine { eng := 0, log := [] } (-30) 48000 1).2
          (-30) 44100 1).1.log =
        [Event.init 0 480 48000 none, Event.alloc 0 480, Event.init 0 441 44100 (some 1)] ∧
      (noise_suppress_update flaky_engine
          (noise_suppress_create flaky_engine { eng := 0, log := [] } (-30) 48000 1).1
          (noise_suppress_create flaky_engine { eng := 0, log := [] } (-30) 48000 1).2
          (-30) 44100 1).2.state 0 = some 1 ∧
      ((noise_suppress_update flaky_engine
          (noise_suppress_create flaky_engine { eng := 0, log := [] } (-30) 48000 1).1
          (noise_suppress_create flaky_engine { eng := 0, log := [] } (-30) 48000 1).2
          (-30) 44100 1).2.segment_buffer 0).map List.length = some 480 := by
  refine ⟨by decide, rfl, rfl, by decide, by decide, ?_⟩
  have h : (noise_suppress_update flaky_engine
      (noise_suppress_create flaky_engine { eng := 0, log := [] } (-30) 48000 1).1
      (noise_suppress_create flaky_engine { eng := 0, log := [] } (-30) 48000 1).2 (-30) 44100
        1).2.segment_buffer 0 = some ((List.range 480).map flaky_engine.fresh) := rfl
  rw [h]
  simp

/-- C2 (as amended): for a sample `f` with `-32768 ≤ f * 32767 ≤ 32767`, converting
to 16 bit and back yields a value within `1 + |f|` quantisation steps of `f`:
`|trunc (f * 32767) / 32768 - f| < (1 + |f|) / 32768`, which on that domain is
below `2 / 32767`; and the 16 bit value is the truncation of `f * 32767`.  This
holds over exact rational arithmetic, and it holds as well for the conversion of
the code, in which the product is rounded to binary32 before it is truncated. -/
theorem sample_round_trip (f : ℚ) (hlo : -32768 ≤ f * 32767) (hhi : f * 32767 ≤ 32767) :
    sample_to_16_exact f = trunc (f * 32767) ∧
      |sample_to_32 (sample_to_16_exact f) - f| < (1 + |f|) / 32768 ∧
      |sample_to_32 (sample_to_16_exact f) - f| < 2 / 32767 ∧
      sample_to_16 f = trunc (fl32 (f * 32767)) ∧
      |sample_to_32 (sample_to_16 f) - f| < (1 + |f|) / 32768 ∧
      |sample_to_32 (sample_to_16 f) - f| < 2 / 32767 := by
  have hf : |f| ≤ 32768 / 32767 := by
    rw [abs_le]
    constructor <;> linarith
  have hstep : (1 + |f|) / 32768 ≤ 2 / 32767 := by linarith
  have key : |(trunc (f * 32767) : ℚ) / 32768 - f| < (1 + |f|) / 32768 := by
    rcases le_total 0 f with h | h
    · obtain ⟨a, b⟩ := trunc_bounds_nonneg (f * 32767) (by linarith)
      rw [abs_of_nonneg h, abs_lt]
      constructor <;> linarith
    · obtain ⟨a, b⟩ := trunc_bounds_nonpos (f * 32767) (by linarith)
      rw [abs_of_nonpos h, abs_lt]
      constructor <;> linarith
  obtain ⟨r1, r2, n1, n2⟩ := trunc_fl32_near (f * 32767) hlo hhi
  have key32 : |(trunc (fl32 (f * 32767)) : ℚ) / 32768 - f| < (1 + |f|) / 32768 := by
    have p1 := le_abs_self f
    have p2 := neg_abs_le f
    rw [abs_lt]
    constructor <;> linarith
  have e1 := sample_to_16_exact_of_range f hlo hhi
  have e2 := sample_to_16_of_fit f r1 r2
  refine ⟨e1, ?_, ?_, e2, ?_, ?_⟩
  · rw [e1]
    exact key
  · rw [e1]
    exact lt_of_lt_of_le key hstep
  · rw [e2]
    exact key32
  · rw [e2]
    exact lt_of_lt_of_le key32 hstep

/-- C2, a concrete instance: the sample `9/10`. -/
theorem sample_round_trip_witness :
    sample_to_16_exact (9 / 10) = trunc (9 / 10 * 32767) ∧
      |sample_to_32 (sample_to_16_exact (9 / 10)) - 9 / 10| < (1 + |(9 / 10 : ℚ)|) / 32768 ∧
      |sample_to_32 (sample_to_16_exact (9 / 10)) - 9 / 10| < 2 / 32767 ∧
      sample_to_16 (9 / 10) = trunc (fl32 (9 / 10 * 32767)) ∧
      |sample_to_32 (sample_to_16 (9 / 10)) - 9 / 10| < (1 + |(9 / 10 : ℚ)|) / 32768 ∧
      |sample_to_32 (sample_to_16 (9 / 10)) - 9 / 10| < 2 / 32767 :=
  sample_round_trip (9 / 10) (by norm_num) (by norm_num)

/-- C2 as stated fails: `9/10` is in the domain, it is converted to 29490, with
the exact product and with the binary32 product alike, and `29490 / 32768` is
more than `1 / 32768` away from `9/10`. -/
theorem sample_round_trip_counterexample :
    (-32768 : ℚ) ≤ 9 / 10 * 32767 ∧ (9 / 10 : ℚ) * 32767 ≤ 32767 ∧
      trunc (9 / 10 * 32767) = 29490 ∧ sample_to_16_exact (9 / 10) = 29490 ∧
      ¬ |sample_to_32 (sample_to_16_exact (9 / 10)) - 9 / 10| ≤ 1 / 32768 ∧
      sample_to_16 (9 / 10) = 29490 ∧
      ¬ |sample_to_32 (sample_to_16 (9 / 10)) - 9 / 10| ≤ 1 / 32768 := by
  have h : sample_to_16_exact (9 / 10) = 29490 := by
    norm_num [sample_to_16_exact, to_int16, trunc, c_32_to_16, wrap16]
    decide
  have h32 : sample_to_16 (9 / 10) = 29490 := by
    unfold sample_to_16 c_32_to_16
    rw [fl32_nine_tenths]
    norm_num [to_int16, trunc, wrap16]
    decide
  have ht : trunc (9 / 10 * 32767) = 29490 := by
    norm_num [trunc]
    decide
  refine ⟨by norm_num, by norm_num, ht, h, ?_, h32, ?_⟩
  · rw [h]
    norm_num [sample_to_32, c_16_to_32, abs_of_neg]
  · rw [h32]
    norm_num [sample_to_32, c_16_to_32, abs_of_neg]

end MicDsp
